import Mathlib

/-! # SketchEditor: the raster annotation editor of the sketch wizard

A shallow embedding of `frontend/src/components/SketchEditor.jsx`.

* The React state of the component (`isDrawing`, `tool`, `color`, `lineWidth`,
  `history`, `historyStep`) and the 2D context of its canvas are the fields of
  `EditorState`; every handler is a function on that state, run on the state
  of the latest render.
* The browser primitives the component calls (`toDataURL`, image decoding,
  `fillRect`, `clearRect`, `drawImage`, `stroke`) are the fields of
  `CanvasApi`; the component is generic in them.
* The operations `undo` and `redo` are the handler followed at once by the
  `onload` of the image it starts loading. A `Session` separates the two: the
  handler (`undoClick`, `redoClick`) leaves the load in flight and
  `imageLoaded` ends it, with any events in between. A source that does not
  decode never fires `onload`.
* `getMousePos` is stated over exact rationals, `getMousePosDouble` over IEEE
  754 doubles with every operation rounded; a JavaScript result that is not
  finite (`Infinity`, `NaN`) is `none`.
* The host side of the editor (`buildDescription`, `handleEditorSave`,
  `handleEditorCancel` of `SketchCanvas.jsx`) and the index handlers of
  `FeatureSelector.jsx` follow the editor.
-/

namespace SketchEditor

/-! ## JavaScript array primitives -/

/-- JavaScript `Array.prototype.slice(start, end)`: negative arguments count
from the end of the array, and both are clipped to the array. -/
def slice {α : Type} (xs : List α) (start stop : Int) : List α :=
  let len : Int := xs.length
  let k : Int := if start < 0 then max (len + start) 0 else min start len
  let final : Int := if stop < 0 then max (len + stop) 0 else min stop len
  (xs.drop k.toNat).take (final - k).toNat

/-- JavaScript `xs[i]` for an integer `i`: `none` stands for `undefined`. -/
def index {α : Type} (xs : List α) (i : Int) : Option α :=
  if i < 0 then none else xs.get? i.toNat

/-! ## Geometry -/

/-- A point in buffer space, the object returned by `getMousePos`. -/
structure Point where
  x : ℚ
  y : ℚ
deriving DecidableEq

/-- The fields of a mouse event that the component reads. -/
structure MouseEvent where
  clientX : ℚ
  clientY : ℚ
deriving DecidableEq

/-- The fields of `getBoundingClientRect()` that the component reads. -/
structure DOMRect where
  left : ℚ
  top : ℚ
  width : ℚ
  height : ℚ
deriving DecidableEq

/-- JavaScript division restricted to finite results: a zero divisor gives
`Infinity` or `NaN`, which is `none`. -/
def jsDiv (a b : ℚ) : Option ℚ :=
  if b = 0 then none else some (a / b)

/-- The function `getMousePos` of the component, for a canvas of the given
pixel size and the bounding rectangle reported by the browser. -/
def getMousePos (canvasWidth canvasHeight : ℚ) (rect : DOMRect) (e : MouseEvent) :
    Option Point :=
  match jsDiv canvasWidth rect.width, jsDiv canvasHeight rect.height with
  | some scaleX, some scaleY =>
      some { x := (e.clientX - rect.left) * scaleX, y := (e.clientY - rect.top) * scaleY }
  | _, _ => none

/-! ## IEEE 754 doubles -/

/-- A finite IEEE 754 binary64 number, `mantissa * 2 ^ exponent`. -/
structure Double where
  mantissa : Int
  exponent : Int
deriving DecidableEq

/-- The rational value of a finite double. -/
def Double.toRat (d : Double) : ℚ :=
  (d.mantissa : ℚ) * (2 : ℚ) ^ d.exponent

/-- The integer value of a finite double that is an integer. -/
def Double.toInt (d : Double) : Int :=
  if 0 ≤ d.exponent then d.mantissa * 2 ^ d.exponent.toNat
  else d.mantissa / 2 ^ (-d.exponent).toNat

/-- The double that is the integer `n`, for `n` of at most 53 bits. -/
def Double.int (n : Int) : Double :=
  { mantissa := n, exponent := 0 }

/-- The integer part of the binary logarithm of `n`, for `n` below
`2 ^ (fuel + 1)`; 0 for `n = 0`. -/
def log2Fuel : Nat → Nat → Nat
  | 0, _ => 0
  | fuel + 1, n => if n < 2 then 0 else log2Fuel fuel (n / 2) + 1

/-- The integer part of the binary logarithm of `num / den`, both positive. -/
def floorLog2 (num den : Nat) : Int :=
  let e0 : Int := (log2Fuel num num : Int) - (log2Fuel den den : Int)
  if den * 2 ^ e0.toNat ≤ num * 2 ^ (-e0).toNat then e0 else e0 - 1

/-- The binary64 number nearest to `n / d * 2 ^ k`, ties to the even mantissa:
53 significant bits down to the exponent -1022, multiples of `2 ^ -1074`
below. The result is `none` when it is not finite: a zero denominator, or a
magnitude that rounds to `2 ^ 1024` or more (an exponent above 971, or the
mantissa `2 ^ 53` at the exponent 971). -/
def roundBinary64 (n : Int) (d : Nat) (k : Int) : Option Double :=
  if d = 0 then none
  else if n = 0 then some { mantissa := 0, exponent := 0 }
  else
    let num : Nat := n.natAbs * 2 ^ k.toNat
    let den : Nat := d * 2 ^ (-k).toNat
    let e : Int := max (floorLog2 num den) (-1022)
    let q : Int := e - 52
    let top : Nat := num * 2 ^ (-q).toNat
    let bottom : Nat := den * 2 ^ q.toNat
    let m : Nat := top / bottom
    let r : Nat := top % bottom
    let rounded : Nat :=
      if 2 * r < bottom then m
      else if bottom < 2 * r then m + 1
      else if m % 2 = 0 then m else m + 1
    if 971 < q ∨ (q = 971 ∧ 2 ^ 53 ≤ rounded) then none
    else some { mantissa := if n < 0 then -(rounded : Int) else rounded, exponent := q }

/-- JavaScript `a - b` on finite doubles. -/
def Double.sub (a b : Double) : Option Double :=
  let q : Int := min a.exponent b.exponent
  roundBinary64
    (a.mantissa * 2 ^ (a.exponent - q).toNat - b.mantissa * 2 ^ (b.exponent - q).toNat) 1 q

/-- JavaScript `a * b` on finite doubles. -/
def Double.mul (a b : Double) : Option Double :=
  roundBinary64 (a.mantissa * b.mantissa) 1 (a.exponent + b.exponent)

/-- JavaScript `a / b` on finite doubles; a zero divisor gives `Infinity` or
`NaN`, which is `none`. -/
def Double.div (a b : Double) : Option Double :=
  roundBinary64 (if b.mantissa < 0 then -a.mantissa else a.mantissa) b.mantissa.natAbs
    (a.exponent - b.exponent)

/-- The function `getMousePos` in the arithmetic of the source, IEEE 754
doubles: the result of every operation is rounded, and a result that is not
finite is `none`. The arguments are the canvas size, then `rect.left`,
`rect.top`, `rect.width`, `rect.height`, then `e.clientX`, `e.clientY`. -/
def getMousePosDouble
    (canvasWidth canvasHeight left top width height clientX clientY : Double) :
    Option (Double × Double) :=
  match Double.div canvasWidth width, Double.div canvasHeight height with
  | some scaleX, some scaleY =>
      match Double.sub clientX left, Double.sub clientY top with
      | some dx, some dy =>
          match Double.mul dx scaleX, Double.mul dy scaleY with
          | some x, some y => some (x, y)
          | _, _ => none
      | _, _ => none
  | _, _ => none

/-! ## The canvas -/

/-- The drawing tools of the toolbar. -/
inductive Tool where
  | pen
  | eraser
deriving DecidableEq, Repr

/-- The stroke attributes of the 2D context that `draw` sets. -/
structure StrokeStyle where
  strokeStyle : String
  lineWidth : Int
  lineCap : String
  lineJoin : String
deriving DecidableEq

/-- The browser primitives used by the component. `Buffer` is the pixel
content of the canvas, `Image` a decoded image, `Snapshot` a data URL. -/
structure CanvasApi (Buffer Image Snapshot : Type) where
  /-- The content of a freshly created canvas. -/
  blank : Buffer
  /-- The method `canvas.toDataURL()`. -/
  toDataURL : Buffer → Snapshot
  /-- Loading a source into an `Image`; `none` when `onload` never fires. -/
  decode : Snapshot → Option Image
  /-- The call `fillRect(0, 0, canvas.width, canvas.height)` with a fill style. -/
  fillRect : Buffer → String → Buffer
  /-- The call `clearRect(0, 0, canvas.width, canvas.height)`. -/
  clearRect : Buffer → Buffer
  /-- The call `drawImage(img, 0, 0)`. -/
  drawImage : Buffer → Image → Buffer
  /-- The call `drawImage(img, 0, 0, canvas.width, canvas.height)`. -/
  drawImageScaled : Buffer → Image → Buffer
  /-- The call `stroke()` on the current path with the current stroke attributes. -/
  stroke : Buffer → StrokeStyle → List (List Point) → Buffer

/-- The canvas element with its 2D context: the pixels, the current path (a
list of subpaths) and the style attributes. -/
structure Canvas (Buffer : Type) where
  width : Nat
  height : Nat
  pixels : Buffer
  path : List (List Point)
  fillStyle : String
  style : StrokeStyle

/-- The method `beginPath()`: empties the current path. -/
def Canvas.beginPath {Buffer : Type} (c : Canvas Buffer) : Canvas Buffer :=
  { c with path := [] }

/-- The method `moveTo(x, y)`: starts a new subpath at the point; arguments
that are not finite are ignored. -/
def Canvas.moveTo {Buffer : Type} (c : Canvas Buffer) (p : Option Point) : Canvas Buffer :=
  match p with
  | some q => { c with path := c.path ++ [[q]] }
  | none => c

/-- The method `lineTo(x, y)`: extends the last subpath, or starts one when the
path is empty; arguments that are not finite are ignored. -/
def Canvas.lineTo {Buffer : Type} (c : Canvas Buffer) (p : Option Point) : Canvas Buffer :=
  match p with
  | some q =>
      match c.path.getLast? with
      | some sub => { c with path := c.path.dropLast ++ [sub ++ [q]] }
      | none => { c with path := [[q]] }
  | none => c

/-- Assignment to `ctx.lineWidth`: zero, negative and `NaN` values are ignored. -/
def Canvas.setLineWidth {Buffer : Type} (c : Canvas Buffer) (w : Option Int) : Canvas Buffer :=
  match w with
  | some v => if 0 < v then { c with style := { c.style with lineWidth := v } } else c
  | none => c

/-! ## The component -/

/-- The state of a mounted `SketchEditor`: the canvas behind `canvasRef` and
the six `useState` cells. A `lineWidth` of `none` is a value that is not a
finite number (`NaN`). -/
structure EditorState (Buffer Snapshot : Type) where
  canvas : Canvas Buffer
  isDrawing : Bool
  tool : Tool
  color : String
  lineWidth : Option Int
  history : List Snapshot
  historyStep : Int

section Handlers

variable {Buffer Image Snapshot : Type}

/-- The state of the first render: a fresh 512 x 512 canvas with the default
context attributes, and the initial values of the `useState` cells. -/
def initialState (api : CanvasApi Buffer Image Snapshot) : EditorState Buffer Snapshot :=
  { canvas :=
      { width := 512, height := 512, pixels := api.blank, path := [],
        fillStyle := "#000000",
        style := { strokeStyle := "#000000", lineWidth := 1, lineCap := "butt",
                   lineJoin := "miter" } },
    isDrawing := false,
    tool := Tool.pen,
    color := "#000000",
    lineWidth := some 2,
    history := [],
    historyStep := -1 }

/-- The handler `saveToHistory`. -/
def saveToHistory (api : CanvasApi Buffer Image Snapshot) (s : EditorState Buffer Snapshot) :
    EditorState Buffer Snapshot :=
  let newHistory := slice s.history 0 (s.historyStep + 1) ++ [api.toDataURL s.canvas.pixels]
  { s with history := newHistory, historyStep := (newHistory.length : Int) - 1 }

/-- The image load started by `undo` and `redo`: when the source is a snapshot
that decodes, `onload` clears the canvas and draws the image at the origin. -/
def loadSnapshot (api : CanvasApi Buffer Image Snapshot) (c : Canvas Buffer)
    (src : Option Snapshot) : Canvas Buffer :=
  match src.bind api.decode with
  | some img => { c with pixels := api.drawImage (api.clearRect c.pixels) img }
  | none => c

/-- The operation undo: the handler `undo` followed at once by the `onload` of
the image it loads (`undoClick` then `imageLoaded` in a `Session`). -/
def undo (api : CanvasApi Buffer Image Snapshot) (s : EditorState Buffer Snapshot) :
    EditorState Buffer Snapshot :=
  if s.historyStep > 0 then
    { s with canvas := loadSnapshot api s.canvas (index s.history (s.historyStep - 1)),
             historyStep := s.historyStep - 1 }
  else s

/-- The operation redo: the handler `redo` followed at once by the `onload` of
the image it loads (`redoClick` then `imageLoaded` in a `Session`). -/
def redo (api : CanvasApi Buffer Image Snapshot) (s : EditorState Buffer Snapshot) :
    EditorState Buffer Snapshot :=
  if s.historyStep < (s.history.length : Int) - 1 then
    { s with canvas := loadSnapshot api s.canvas (index s.history (s.historyStep + 1)),
             historyStep := s.historyStep + 1 }
  else s

/-- The handler `startDrawing`, for a mouse event and the bounding rectangle
of the canvas at that time. -/
def startDrawing (rect : DOMRect) (e : MouseEvent) (s : EditorState Buffer Snapshot) :
    EditorState Buffer Snapshot :=
  let pos := getMousePos s.canvas.width s.canvas.height rect e
  { s with isDrawing := true, canvas := s.canvas.beginPath.moveTo pos }

/-- The handler `draw`. The colours assigned to `strokeStyle` are the literal
`'white'` and the value of the colour input, which are valid CSS colours, so
the assignment always takes effect. -/
def draw (api : CanvasApi Buffer Image Snapshot) (rect : DOMRect) (e : MouseEvent)
    (s : EditorState Buffer Snapshot) : EditorState Buffer Snapshot :=
  if !s.isDrawing then s
  else
    let pos := getMousePos s.canvas.width s.canvas.height rect e
    let c0 := s.canvas
    let c1 : Canvas Buffer :=
      { c0 with style := { c0.style with
          strokeStyle := if s.tool = Tool.eraser then "white" else s.color } }
    let c2 := c1.setLineWidth s.lineWidth
    let c3 : Canvas Buffer :=
      { c2 with style := { c2.style with lineCap := "round", lineJoin := "round" } }
    let c4 := c3.lineTo pos
    { s with canvas := { c4 with pixels := api.stroke c4.pixels c4.style c4.path } }

/-- The handler `stopDrawing`. -/
def stopDrawing (api : CanvasApi Buffer Image Snapshot) (s : EditorState Buffer Snapshot) :
    EditorState Buffer Snapshot :=
  if s.isDrawing then saveToHistory api { s with isDrawing := false }
  else s

/-- The handler `clearCanvas`. -/
def clearCanvas (api : CanvasApi Buffer Image Snapshot) (s : EditorState Buffer Snapshot) :
    EditorState Buffer Snapshot :=
  let c0 := s.canvas
  let c1 : Canvas Buffer := { c0 with fillStyle := "white" }
  let c2 : Canvas Buffer := { c1 with pixels := api.fillRect c1.pixels c1.fillStyle }
  saveToHistory api { s with canvas := c2 }

/-- The replacement of the pixels of the canvas by `b`: the effect on the
buffer of whatever was drawn since the last handler shown. -/
def paint (b : Buffer) (s : EditorState Buffer Snapshot) : EditorState Buffer Snapshot :=
  { s with canvas := { s.canvas with pixels := b } }

/-- The handlers that change the state of the component, with the values the
browser passes to them. A handler may be called in any state; the toolbar
disables the undo and redo buttons in the states where the handler does
nothing. -/
inductive Action where
  | saveToHistory
  | undo
  | redo
  | clearCanvas
  | startDrawing (rect : DOMRect) (e : MouseEvent)
  | draw (rect : DOMRect) (e : MouseEvent)
  | stopDrawing
  | setTool (t : Tool)
  | setColor (c : String)
  | setLineWidth (w : Option Int)
deriving DecidableEq

/-- One handler call. -/
def step (api : CanvasApi Buffer Image Snapshot) (a : Action)
    (s : EditorState Buffer Snapshot) : EditorState Buffer Snapshot :=
  match a with
  | Action.saveToHistory => saveToHistory api s
  | Action.undo => undo api s
  | Action.redo => redo api s
  | Action.clearCanvas => clearCanvas api s
  | Action.startDrawing rect e => startDrawing rect e s
  | Action.draw rect e => draw api rect e s
  | Action.stopDrawing => stopDrawing api s
  | Action.setTool t => { s with tool := t }
  | Action.setColor c => { s with color := c }
  | Action.setLineWidth w => { s with lineWidth := w }

/-- A sequence of handler calls, the first of the list first. -/
def run (api : CanvasApi Buffer Image Snapshot) (as : List Action)
    (s : EditorState Buffer Snapshot) : EditorState Buffer Snapshot :=
  as.foldl (fun t a => step api a t) s

/-- Decoding a snapshot returns the buffer that was encoded: the data URL of a
buffer loads, and drawn on a cleared canvas it gives that buffer back. -/
def Lossless (api : CanvasApi Buffer Image Snapshot) : Prop :=
  ∀ b c : Buffer, ∃ img, api.decode (api.toDataURL b) = some img ∧
    api.drawImage (api.clearRect c) img = b

/-- The buffer has the content of the snapshot: the snapshot decodes, and the
decoded image drawn on a cleared canvas is the buffer. -/
def Shows (api : CanvasApi Buffer Image Snapshot) (pixels : Buffer) (snap : Snapshot) : Prop :=
  ∃ img, api.decode snap = some img ∧ ∀ c : Buffer, api.drawImage (api.clearRect c) img = pixels

/-- The content of the buffer equals the content of `history[historyStep]`. -/
def BufferIsCurrent (api : CanvasApi Buffer Image Snapshot)
    (s : EditorState Buffer Snapshot) : Prop :=
  ∃ snap, index s.history s.historyStep = some snap ∧ Shows api s.canvas.pixels snap

end Handlers

/-- A canvas of a single pixel: the buffer is the colour of the pixel, a data
URL is that colour too, and a stroke colours the pixel as soon as the path has
a segment. -/
def onePixel : CanvasApi String String String :=
  { blank := "transparent",
    toDataURL := fun b => b,
    decode := fun u => some u,
    fillRect := fun _ colour => colour,
    clearRect := fun _ => "transparent",
    drawImage := fun _ img => img,
    drawImageScaled := fun _ img => img,
    stroke := fun b st path => if path.any (fun sub => decide (2 ≤ sub.length)) then st.strokeStyle else b }

/-- A state of the one-pixel editor with the given history and cursor. -/
def sample (history : List String) (historyStep : Int) (pixels : String) :
    EditorState String String :=
  { initialState onePixel with
    history := history, historyStep := historyStep,
    canvas := { (initialState onePixel).canvas with pixels := pixels } }

/-! ## Invariants of the history -/

section Invariants

variable {Buffer Image Snapshot : Type}

/-- The cursor addresses an entry of a non-empty history, and is -1 on the
empty history. -/
def CursorValid (s : EditorState Buffer Snapshot) : Prop :=
  (s.history = [] ∧ s.historyStep = -1)
    ∨ (0 ≤ s.historyStep ∧ s.historyStep < (s.history.length : Int))

/-- The cursor is on the newest entry of the history. -/
def AtNewest (s : EditorState Buffer Snapshot) : Prop :=
  s.historyStep = (s.history.length : Int) - 1

/-- Every entry of the history is the data URL of some buffer. -/
def Encoded (api : CanvasApi Buffer Image Snapshot) (s : EditorState Buffer Snapshot) : Prop :=
  ∀ snap ∈ s.history, ∃ b, snap = api.toDataURL b

/-- Outside a stroke, the entry under the cursor of a non-empty history is the
data URL of the buffer. -/
def Synced (api : CanvasApi Buffer Image Snapshot) (s : EditorState Buffer Snapshot) : Prop :=
  s.isDrawing = false → s.history ≠ [] →
    index s.history s.historyStep = some (api.toDataURL s.canvas.pixels)

/-- The three invariants of the editor together. -/
def Inv (api : CanvasApi Buffer Image Snapshot) (s : EditorState Buffer Snapshot) : Prop :=
  CursorValid s ∧ Encoded api s ∧ Synced api s

/-- The bounding rectangle of a canvas shown at its own size at the origin. -/
def fullRect : DOMRect :=
  { left := 0, top := 0, width := 512, height := 512 }

/-- A stroke in progress on a cleared canvas: the canvas is cleared, the
pointer goes down at (10, 10) and moves to (20, 20), and is not yet released. -/
def midStroke : List Action :=
  [Action.clearCanvas,
   Action.startDrawing fullRect { clientX := 10, clientY := 10 },
   Action.draw fullRect { clientX := 20, clientY := 20 }]

end Invariants

/-! ## Opening the editor and the width control -/

section Opening

variable {Buffer Image Snapshot : Type}

/-- The effect of `useEffect`, run on the state of the render that mounted the
component. An `initialImage` of `none` is a prop that is not truthy (`null`,
`undefined`, the empty string). The load of the image is part of the
operation; when the source does not decode, `onload` never fires and nothing
else is registered on the image. -/
def mountEffect (api : CanvasApi Buffer Image Snapshot) (initialImage : Option Snapshot)
    (s : EditorState Buffer Snapshot) : EditorState Buffer Snapshot :=
  match initialImage with
  | some src =>
      match api.decode src with
      | some img =>
          saveToHistory api
            { s with canvas :=
                { s.canvas with pixels := api.drawImageScaled s.canvas.pixels img } }
      | none => s
  | none =>
      let c0 := s.canvas
      let c1 : Canvas Buffer := { c0 with fillStyle := "white" }
      let c2 : Canvas Buffer := { c1 with pixels := api.fillRect c1.pixels c1.fillStyle }
      saveToHistory api { s with canvas := c2 }

end Opening

/-- The white space that JavaScript strips from the start of a numeric string:
the code points of `WhiteSpace` and `LineTerminator`. -/
def isStrWhiteSpace (c : Char) : Bool :=
  let n := c.toNat
  n == 0x9 || n == 0xA || n == 0xB || n == 0xC || n == 0xD || n == 0x20 || n == 0xA0
    || n == 0x1680 || (0x2000 ≤ n && n ≤ 0x200A) || n == 0x2028 || n == 0x2029
    || n == 0x202F || n == 0x205F || n == 0x3000 || n == 0xFEFF

/-- The value of a character as a digit of the given radix, if it is one. -/
def digitOf (radix : Nat) (c : Char) : Option Nat :=
  let n := c.toNat
  let v : Option Nat :=
    if 48 ≤ n ∧ n ≤ 57 then some (n - 48)
    else if 97 ≤ n ∧ n ≤ 122 then some (n - 87)
    else if 65 ≤ n ∧ n ≤ 90 then some (n - 55)
    else none
  match v with
  | some d => if d < radix then some d else none
  | none => none

/-- The longest run of digits of the radix at the start of the characters. -/
def readDigits (radix : Nat) : List Char → List Nat
  | [] => []
  | c :: cs =>
      match digitOf radix c with
      | some d => d :: readDigits radix cs
      | none => []

/-- JavaScript `parseInt(string)` with no radix argument: leading white space
is skipped, a sign is read, `0x` or `0X` selects radix 16, the leading digits
are read and the rest is ignored, and the integer read is rounded to the
nearest double; `none` is a result that is not a finite number (`NaN`, or an
integer too large for a double). -/
def parseInt (s : String) : Option Int :=
  let cs := s.toList.dropWhile isStrWhiteSpace
  let negative : Bool := cs.head? == some '-'
  let cs1 : List Char :=
    match cs with
    | c :: rest => if c = '-' ∨ c = '+' then rest else cs
    | [] => cs
  let hex : Bool :=
    match cs1 with
    | a :: b :: _ => a == '0' && (b == 'x' || b == 'X')
    | _ => false
  let radix : Nat := if hex then 16 else 10
  let cs2 : List Char := if hex then cs1.drop 2 else cs1
  match readDigits radix cs2 with
  | [] => none
  | d :: ds =>
      let mathInt : Nat := (d :: ds).foldl (fun acc k => acc * radix + k) 0
      match roundBinary64 mathInt 1 0 with
      | some number => some (if negative then -number.toInt else number.toInt)
      | none => none

section WidthControl

variable {Buffer Snapshot : Type}

/-- The `onChange` handler of the width control, for the `value` of the input
element: `setLineWidth(parseInt(e.target.value))`. -/
def onLineWidthChange (value : String) (s : EditorState Buffer Snapshot) :
    EditorState Buffer Snapshot :=
  { s with lineWidth := parseInt value }

/-- The value that the width control, `<input type="range" min="1" max="20">`
with the default step 1, delivers to `onChange` when the user asks for the
position `requested`: the browser keeps the value between `min` and `max`
and passes its decimal text. -/
def rangeValue (requested : Int) : String :=
  toString (max 1 (min 20 requested))

/-- The handler call sets no width outside 1..20: every call of `setLineWidth`
passes an integer of the range of the control (`min="1"`, `max="20"`). -/
def widthInRange : Action → Bool
  | Action.setLineWidth (some v) => decide (1 ≤ v) && decide (v ≤ 20)
  | Action.setLineWidth none => false
  | _ => true

end WidthControl

/-- A one-pixel canvas whose decoder rejects the source `"corrupt"`. -/
def strictPixel : CanvasApi String String String :=
  { onePixel with decode := fun u => if u = "corrupt" then none else some u }

/-! ## Save and Cancel -/

/-- A call of one of the two callbacks the host passes to the editor. -/
inductive HostCall (Snapshot : Type) where
  | onSave (imageData : Snapshot)
  | onCancel
deriving DecidableEq

section Export

variable {Buffer Image Snapshot : Type}

/-- The handler `handleSave`: the state after the call and the callbacks it
invoked, in order. `toDataURL('image/png')` is `toDataURL()`, whose default
type is PNG. -/
def handleSave (api : CanvasApi Buffer Image Snapshot) (s : EditorState Buffer Snapshot) :
    EditorState Buffer Snapshot × List (HostCall Snapshot) :=
  let imageData := api.toDataURL s.canvas.pixels
  (s, [HostCall.onSave imageData])

/-- The click handler of the two Cancel buttons, `onClick={onCancel}`. -/
def handleCancel (s : EditorState Buffer Snapshot) :
    EditorState Buffer Snapshot × List (HostCall Snapshot) :=
  (s, [HostCall.onCancel])

end Export

/-! ## The sketch step: description and editor callbacks -/

/-- The `selectedFeatures` object: the value of a property, `none` when the
property is absent. -/
abbrev Features := String → Option String

/-- JavaScript truthiness of a property that is a string or absent. -/
def truthy (v : Option String) : Bool :=
  match v with
  | some x => x != ""
  | none => false

/-- The text of a property inside a template literal or as an array element. -/
def str (v : Option String) : String :=
  match v with
  | some x => x
  | none => "undefined"

/-- The function `buildDescription` of `SketchCanvas`. -/
def buildDescription (selectedFeatures : Features) : String :=
  let parts : List String := []
  let parts := if truthy (selectedFeatures "complexion")
    then parts ++ [str (selectedFeatures "complexion") ++ " complexion"] else parts
  let parts := if truthy (selectedFeatures "faceShape")
    then parts ++ [str (selectedFeatures "faceShape") ++ " face shape"] else parts
  let parts := if truthy (selectedFeatures "eyeShape")
    then parts ++ [str (selectedFeatures "eyeShape") ++ " eyes"] else parts
  let parts := if truthy (selectedFeatures "noseType")
    then parts ++ [str (selectedFeatures "noseType") ++ " nose"] else parts
  let parts := if truthy (selectedFeatures "mouthShape")
    then parts ++ [str (selectedFeatures "mouthShape") ++ " lips"] else parts
  let parts := if truthy (selectedFeatures "eyebrows")
    then parts ++ [str (selectedFeatures "eyebrows") ++ " eyebrows"] else parts
  let parts := if truthy (selectedFeatures "hairType")
    then parts ++ [str (selectedFeatures "hairType") ++ " hair"] else parts
  let parts :=
    if truthy (selectedFeatures "facialHair")
        && selectedFeatures "facialHair" != some "clean shaven"
    then parts ++ [str (selectedFeatures "facialHair")] else parts
  let parts :=
    if truthy (selectedFeatures "distinctiveMarks")
        && selectedFeatures "distinctiveMarks" != some "none"
    then parts ++ [str (selectedFeatures "distinctiveMarks")] else parts
  String.intercalate ", " parts

/-- One line of the description as the specification words it: the feature,
the words that follow its value, and the value that contributes no phrase. -/
structure PhraseRule where
  key : String
  words : String
  silent : Option String

/-- The nine features in the order of the specification. -/
def phraseRules : List PhraseRule :=
  [ { key := "complexion", words := " complexion", silent := none },
    { key := "faceShape", words := " face shape", silent := none },
    { key := "eyeShape", words := " eyes", silent := none },
    { key := "noseType", words := " nose", silent := none },
    { key := "mouthShape", words := " lips", silent := none },
    { key := "eyebrows", words := " eyebrows", silent := none },
    { key := "hairType", words := " hair", silent := none },
    { key := "facialHair", words := "", silent := some "clean shaven" },
    { key := "distinctiveMarks", words := "", silent := some "none" } ]

/-- The phrase of a feature under a rule: none when the feature has no value,
an empty value, or the silent value of the rule. -/
def phraseOf (selectedFeatures : Features) (r : PhraseRule) : Option String :=
  match selectedFeatures r.key with
  | some v => if v = "" ∨ r.silent = some v then none else some (v ++ r.words)
  | none => none

/-- The description as the specification states it: the phrases of the
features that have one, in the fixed order, joined by a comma and a space. -/
def buildDescriptionSpec (selectedFeatures : Features) : String :=
  String.intercalate ", " (phraseRules.filterMap (phraseOf selectedFeatures))

/-- An entry of `sketchHistory`. -/
structure SketchVersion where
  image : String
  description : String
  timestamp : Nat
deriving DecidableEq

/-- The `useState` cells of `SketchCanvas`; a `null` image is `none`. -/
structure HostState where
  sketchImage : Option String
  description : String
  additionalDetails : String
  isGenerating : Bool
  sketchHistory : List SketchVersion
  editedSketch : Option String
  showEditor : Bool
deriving DecidableEq

/-- The handler `handleEditorSave`, with the value `now` of `Date.now()`. -/
def handleEditorSave (now : Nat) (editedImage : String) (h : HostState) : HostState :=
  let editedVersion : SketchVersion :=
    { image := editedImage,
      description := h.description ++ " (manually edited)",
      timestamp := now }
  { h with sketchImage := some editedImage,
           sketchHistory := h.sketchHistory ++ [editedVersion],
           showEditor := false }

/-- The handler `handleEditorCancel`. -/
def handleEditorCancel (h : HostState) : HostState :=
  { h with showEditor := false }

/-! ## The feature-selection step -/

/-- An entry of the catalogue `FEATURE_OPTIONS`. -/
structure FeatureData where
  label : String
  options : List String
deriving DecidableEq

/-- The constant `FEATURE_OPTIONS`, its properties in source order. -/
def FEATURE_OPTIONS : List (String × FeatureData) :=
  [ ("faceShape", FeatureData.mk "Face Shape"
      ["oval", "round", "square", "diamond", "heart", "oblong"]),
    ("eyeShape", FeatureData.mk "Eye Shape"
      ["almond", "round", "hooded", "upturned", "downturned", "monolid"]),
    ("noseType", FeatureData.mk "Nose Type"
      ["straight", "aquiline", "button", "broad", "narrow", "roman"]),
    ("mouthShape", FeatureData.mk "Mouth Shape"
      ["full", "thin", "wide", "small", "bow", "downturned"]),
    ("eyebrows", FeatureData.mk "Eyebrows"
      ["straight", "arched", "rounded", "angled", "bushy", "thin"]),
    ("complexion", FeatureData.mk "Complexion"
      ["fair", "wheatish", "dusky", "dark"]),
    ("hairType", FeatureData.mk "Hair Type"
      ["straight black", "curly", "wavy", "receding hairline", "bald"]),
    ("facialHair", FeatureData.mk "Facial Hair"
      ["clean shaven", "mustache", "beard", "goatee", "stubble"]),
    ("distinctiveMarks", FeatureData.mk "Distinctive Marks"
      ["none", "scar on face", "mole on cheek", "broken nose", "missing tooth",
        "birthmark"]) ]

/-- The value `Object.keys(FEATURE_OPTIONS)`. -/
def featureKeys : List String :=
  FEATURE_OPTIONS.map (fun entry => entry.1)

/-- The state of `FeatureSelector` that the index handlers read and write:
the two `useState` cells, and for every call of `handleSelectOption` still
waiting for the composite request the `currentFeature` of the render that
made the call. -/
structure SelectorState where
  currentFeature : Int
  selectedFeatures : List (String × String)
  awaiting : List Int
deriving DecidableEq

/-- The state of the first render of `FeatureSelector`. -/
def selectorInitial : SelectorState :=
  { currentFeature := 0, selectedFeatures := [], awaiting := [] }

/-- The value `currentFeatureKey`, the text `undefined` when the index misses. -/
def currentFeatureKey (s : SelectorState) : String :=
  str (index featureKeys s.currentFeature)

/-- The value `currentFeatureData`, `none` when the lookup misses. -/
def currentFeatureData (s : SelectorState) : Option FeatureData :=
  FEATURE_OPTIONS.lookup (currentFeatureKey s)

/-- The end of `handleSelectOption`, "move to next feature", with the
`currentFeature` captured by the call. -/
def moveToNext (captured : Int) (s : SelectorState) : SelectorState :=
  if captured < (featureKeys.length : Int) - 1 then
    { s with currentFeature := captured + 1 }
  else s

/-- The object `{...obj, [key]: value}`: a property that exists keeps its
place and takes the value, a new one is added last. -/
def setProperty (obj : List (String × String)) (key value : String) : List (String × String) :=
  if obj.any (fun kv => kv.1 == key) then
    obj.map (fun kv => if kv.1 == key then (key, value) else kv)
  else obj ++ [(key, value)]

/-- The handler `handleSelectOption` up to its first suspension: the selection
is stored; for the first five features the call then waits for the composite
request, otherwise it moves to the next feature at once. -/
def handleSelectOption (option : String) (s : SelectorState) : SelectorState :=
  let newFeatures := setProperty s.selectedFeatures (currentFeatureKey s) option
  let s1 : SelectorState := { s with selectedFeatures := newFeatures }
  if s.currentFeature < 5 then
    { s1 with awaiting := s1.awaiting ++ [s.currentFeature] }
  else moveToNext s.currentFeature s1

/-- The rest of a waiting call of `handleSelectOption`, run when its request
has succeeded or failed: the call at position `i` of `awaiting` moves to the
next feature of the index it captured. -/
def requestDone (i : Nat) (s : SelectorState) : SelectorState :=
  match s.awaiting.get? i with
  | some captured => moveToNext captured { s with awaiting := s.awaiting.eraseIdx i }
  | none => s

/-- The handler `handleBack`. -/
def handleBack (s : SelectorState) : SelectorState :=
  if s.currentFeature > 0 then { s with currentFeature := s.currentFeature - 1 } else s

/-- The events of the feature-selection step that touch the index. -/
inductive SelectorAction where
  | handleSelectOption (option : String)
  | requestDone (i : Nat)
  | handleBack
deriving DecidableEq

/-- One event of the feature-selection step. -/
def selectorStep (a : SelectorAction) (s : SelectorState) : SelectorState :=
  match a with
  | SelectorAction.handleSelectOption option => handleSelectOption option s
  | SelectorAction.requestDone i => requestDone i s
  | SelectorAction.handleBack => handleBack s

/-- A sequence of events of the feature-selection step, the first of the list
first. -/
def selectorRun (as : List SelectorAction) (s : SelectorState) : SelectorState :=
  as.foldl (fun t a => selectorStep a t) s

/-! ## Image loads in flight -/

/-- The editor together with the image loads that `undo` and `redo` have
started and whose `onload` has not fired yet: the value assigned to `img.src`
of each, the oldest first. -/
structure Session (Buffer Snapshot : Type) where
  editor : EditorState Buffer Snapshot
  loading : List (Option Snapshot)

/-- The events of a session: a handler call, where `undo` and `redo` run up to
their return and leave their image loading, and the end of the load at a
position of `loading`. -/
inductive Event where
  | handler (a : Action)
  | imageLoaded (i : Nat)
deriving DecidableEq

section Loads

variable {Buffer Image Snapshot : Type}

/-- The handler `undo` up to its return: the load of `history[historyStep - 1]`
is started and the cursor moves; the pixels are untouched until `onload`. -/
def undoClick (t : Session Buffer Snapshot) : Session Buffer Snapshot :=
  if t.editor.historyStep > 0 then
    { editor := { t.editor with historyStep := t.editor.historyStep - 1 },
      loading := t.loading ++ [index t.editor.history (t.editor.historyStep - 1)] }
  else t

/-- The handler `redo` up to its return. -/
def redoClick (t : Session Buffer Snapshot) : Session Buffer Snapshot :=
  if t.editor.historyStep < (t.editor.history.length : Int) - 1 then
    { editor := { t.editor with historyStep := t.editor.historyStep + 1 },
      loading := t.loading ++ [index t.editor.history (t.editor.historyStep + 1)] }
  else t

/-- The end of the image load at position `i`: `onload` clears the canvas as
it is then and draws the image; a source that does not decode is dropped
without a callback. -/
def imageLoaded (api : CanvasApi Buffer Image Snapshot) (i : Nat)
    (t : Session Buffer Snapshot) : Session Buffer Snapshot :=
  match t.loading.get? i with
  | some src =>
      { editor := { t.editor with canvas := loadSnapshot api t.editor.canvas src },
        loading := t.loading.eraseIdx i }
  | none => t

/-- One event of a session. -/
def sessionStep (api : CanvasApi Buffer Image Snapshot) (ev : Event)
    (t : Session Buffer Snapshot) : Session Buffer Snapshot :=
  match ev with
  | Event.handler Action.undo => undoClick t
  | Event.handler Action.redo => redoClick t
  | Event.handler a => { t with editor := step api a t.editor }
  | Event.imageLoaded i => imageLoaded api i t

/-- A sequence of events of a session, the first of the list first. -/
def sessionRun (api : CanvasApi Buffer Image Snapshot) (es : List Event)
    (t : Session Buffer Snapshot) : Session Buffer Snapshot :=
  es.foldl (fun u ev => sessionStep api ev u) t

/-- The session of an editor just opened on `initialImage`, no load in
flight. -/
def opened (api : CanvasApi Buffer Image Snapshot) (initialImage : Option Snapshot) :
    Session Buffer Snapshot :=
  { editor := mountEffect api initialImage (initialState api), loading := [] }

end Loads

/-- The events of handler calls each followed at once by the end of the load it
started, if any: no other event falls between a click on Undo or Redo and its
`onload`. -/
def settled : List Action → List Event
  | [] => []
  | a :: as => Event.handler a :: Event.imageLoaded 0 :: settled as

/-- A stroke from (10, 10) to (20, 20), pointer released. -/
def oneStroke : List Event :=
  [Event.handler (Action.startDrawing fullRect { clientX := 10, clientY := 10 }),
   Event.handler (Action.draw fullRect { clientX := 20, clientY := 20 }),
   Event.handler Action.stopDrawing]

/-- A click on Undo after one stroke, then a red stroke drawn and released
before the image of the undo has loaded, then the end of that load. -/
def strokeBeforeLoad : List Event :=
  oneStroke ++ [Event.handler Action.undo, Event.handler (Action.setColor "#ff0000")]
    ++ oneStroke ++ [Event.imageLoaded 0]

/-- A one-pixel canvas with a lossless codec whose sources may be corrupt: a
data URL is `some` colour, and the source `none` does not decode. -/
def checkedPixel : CanvasApi String String (Option String) :=
  { blank := "transparent",
    toDataURL := fun b => some b,
    decode := fun u => u,
    fillRect := fun _ colour => colour,
    clearRect := fun _ => "transparent",
    drawImage := fun _ img => img,
    drawImageScaled := fun _ img => img,
    stroke := fun b st path =>
      if path.any (fun sub => decide (2 ≤ sub.length)) then st.strokeStyle else b }

/-! ## Lemmas on the array primitives -/

section Lemmas

variable {α : Type}

theorem slice_zero (xs : List α) (e : Int) (h : 0 ≤ e) :
    slice xs 0 e = xs.take e.toNat := by
  have hneg : ¬ e < 0 := not_lt.mpr h
  simp only [slice, hneg, lt_self_iff_false, if_false]
  have h0 : min (0 : Int) (xs.length : Int) = 0 := min_eq_left (by positivity)
  rw [h0]
  simp only [Int.toNat_zero, List.drop_zero, sub_zero]
  rcases le_total e (xs.length : Int) with hle | hle
  · rw [min_eq_left hle]
  · rw [min_eq_right hle, Int.toNat_ofNat]
    have : xs.length ≤ e.toNat := by omega
    rw [List.take_of_length_le (le_refl _), List.take_of_length_le this]

theorem index_ofNat (xs : List α) (n : Nat) : index xs (n : Int) = xs.get? n := by
  simp [index]

theorem index_append_length (xs : List α) (a : α) :
    index (xs ++ [a]) (xs.length : Int) = some a := by
  simp [index]

end Lemmas

/-! ## The history manager -/

section History

variable {Buffer Image Snapshot : Type}

theorem saveToHistory_history (api : CanvasApi Buffer Image Snapshot)
    (s : EditorState Buffer Snapshot) (hlo : -1 ≤ s.historyStep) :
    (saveToHistory api s).history
      = s.history.take (s.historyStep + 1).toNat ++ [api.toDataURL s.canvas.pixels] := by
  simp only [saveToHistory, slice_zero s.history (s.historyStep + 1) (by omega)]

theorem saveToHistory_historyStep (api : CanvasApi Buffer Image Snapshot)
    (s : EditorState Buffer Snapshot) :
    (saveToHistory api s).historyStep = ((saveToHistory api s).history.length : Int) - 1 :=
  rfl

theorem saveToHistory_history_ne_nil (api : CanvasApi Buffer Image Snapshot)
    (s : EditorState Buffer Snapshot) : (saveToHistory api s).history ≠ [] := by
  simp [saveToHistory]

theorem saveToHistory_canvas (api : CanvasApi Buffer Image Snapshot)
    (s : EditorState Buffer Snapshot) : (saveToHistory api s).canvas = s.canvas :=
  rfl

theorem saveToHistory_isDrawing (api : CanvasApi Buffer Image Snapshot)
    (s : EditorState Buffer Snapshot) : (saveToHistory api s).isDrawing = s.isDrawing :=
  rfl

theorem saveToHistory_index (api : CanvasApi Buffer Image Snapshot)
    (s : EditorState Buffer Snapshot) :
    index (saveToHistory api s).history (saveToHistory api s).historyStep
      = some (api.toDataURL s.canvas.pixels) := by
  simp only [saveToHistory, List.length_append, List.length_singleton]
  push_cast
  rw [add_sub_cancel_right]
  exact index_append_length _ _

theorem undo_of_pos (api : CanvasApi Buffer Image Snapshot) (s : EditorState Buffer Snapshot)
    (h : 0 < s.historyStep) :
    undo api s =
      { s with canvas := loadSnapshot api s.canvas (index s.history (s.historyStep - 1)),
               historyStep := s.historyStep - 1 } := by
  simp [undo, h]

theorem undo_of_nonpos (api : CanvasApi Buffer Image Snapshot) (s : EditorState Buffer Snapshot)
    (h : s.historyStep ≤ 0) : undo api s = s := by
  have : ¬ s.historyStep > 0 := not_lt.mpr h
  simp [undo, this]

theorem redo_of_lt (api : CanvasApi Buffer Image Snapshot) (s : EditorState Buffer Snapshot)
    (h : s.historyStep < (s.history.length : Int) - 1) :
    redo api s =
      { s with canvas := loadSnapshot api s.canvas (index s.history (s.historyStep + 1)),
               historyStep := s.historyStep + 1 } := by
  simp [redo, h]

theorem redo_of_ge (api : CanvasApi Buffer Image Snapshot) (s : EditorState Buffer Snapshot)
    (h : (s.history.length : Int) - 1 ≤ s.historyStep) : redo api s = s := by
  have : ¬ s.historyStep < (s.history.length : Int) - 1 := not_lt.mpr h
  simp [redo, this]

theorem undo_history (api : CanvasApi Buffer Image Snapshot) (s : EditorState Buffer Snapshot) :
    (undo api s).history = s.history := by
  unfold undo
  split <;> rfl

theorem redo_history (api : CanvasApi Buffer Image Snapshot) (s : EditorState Buffer Snapshot) :
    (redo api s).history = s.history := by
  unfold redo
  split <;> rfl

theorem startDrawing_history (rect : DOMRect) (e : MouseEvent) (s : EditorState Buffer Snapshot) :
    (startDrawing rect e s).history = s.history
      ∧ (startDrawing rect e s).historyStep = s.historyStep :=
  ⟨rfl, rfl⟩

theorem draw_history (api : CanvasApi Buffer Image Snapshot) (rect : DOMRect) (e : MouseEvent)
    (s : EditorState Buffer Snapshot) :
    (draw api rect e s).history = s.history ∧ (draw api rect e s).historyStep = s.historyStep := by
  unfold draw
  split <;> exact ⟨rfl, rfl⟩

theorem run_cons (api : CanvasApi Buffer Image Snapshot) (a : Action) (as : List Action)
    (s : EditorState Buffer Snapshot) : run api (a :: as) s = run api as (step api a s) :=
  rfl

theorem run_append_singleton (api : CanvasApi Buffer Image Snapshot) (as : List Action)
    (a : Action) (s : EditorState Buffer Snapshot) :
    run api (as ++ [a]) s = step api a (run api as s) := by
  simp [run, List.foldl_append]

/-- A property of the start state that every handler preserves holds after
every sequence of handler calls. -/
theorem run_invariant (api : CanvasApi Buffer Image Snapshot)
    (P : EditorState Buffer Snapshot → Prop)
    (hstep : ∀ a s, P s → P (step api a s)) :
    ∀ (as : List Action) (s : EditorState Buffer Snapshot), P s → P (run api as s) := by
  intro as
  induction as with
  | nil => intro s hs; exact hs
  | cons a as ih => intro s hs; exact ih _ (hstep a s hs)

theorem cursorValid_saveToHistory (api : CanvasApi Buffer Image Snapshot)
    (s : EditorState Buffer Snapshot) : CursorValid (saveToHistory api s) := by
  right
  have hne := saveToHistory_history_ne_nil api s
  have hpos : 0 < (saveToHistory api s).history.length := List.length_pos.mpr hne
  rw [saveToHistory_historyStep]
  omega

theorem cursorValid_step (api : CanvasApi Buffer Image Snapshot) (a : Action)
    (s : EditorState Buffer Snapshot) (h : CursorValid s) : CursorValid (step api a s) := by
  cases a with
  | saveToHistory => exact cursorValid_saveToHistory api s
  | undo =>
    show CursorValid (undo api s)
    rcases le_or_lt s.historyStep 0 with hc | hc
    · rw [undo_of_nonpos api s hc]; exact h
    · rw [undo_of_pos api s hc]
      rcases h with ⟨_, h1⟩ | ⟨_, h2⟩
      · omega
      · right
        show 0 ≤ s.historyStep - 1 ∧ s.historyStep - 1 < (s.history.length : Int)
        omega
  | redo =>
    show CursorValid (redo api s)
    rcases lt_or_le s.historyStep ((s.history.length : Int) - 1) with hc | hc
    · rw [redo_of_lt api s hc]
      right
      show 0 ≤ s.historyStep + 1 ∧ s.historyStep + 1 < (s.history.length : Int)
      rcases h with ⟨_, h1⟩ | ⟨h2, _⟩ <;> omega
    · rw [redo_of_ge api s hc]; exact h
  | clearCanvas => exact cursorValid_saveToHistory api _
  | startDrawing rect e => exact h
  | draw rect e =>
    show CursorValid (draw api rect e s)
    obtain ⟨h1, h2⟩ := draw_history api rect e s
    unfold CursorValid
    rw [h1, h2]
    exact h
  | stopDrawing =>
    show CursorValid (stopDrawing api s)
    unfold stopDrawing
    split
    · exact cursorValid_saveToHistory api _
    · exact h
  | setTool t => exact h
  | setColor c => exact h
  | setLineWidth w => exact h

theorem cursorValid_initialState (api : CanvasApi Buffer Image Snapshot) :
    CursorValid (initialState api) :=
  Or.inl ⟨rfl, rfl⟩

/-- C1: for a cursor c with -1 <= c < length(history), saveToHistory produces
the first c+1 entries of the history followed by the snapshot of the buffer,
and the new cursor is c+1, the index of that snapshot and the last index. -/
theorem saveToHistory_truncates_and_appends (api : CanvasApi Buffer Image Snapshot)
    (s : EditorState Buffer Snapshot)
    (hlo : -1 ≤ s.historyStep) (hhi : s.historyStep < (s.history.length : Int)) :
    (saveToHistory api s).history
        = s.history.take (s.historyStep + 1).toNat ++ [api.toDataURL s.canvas.pixels]
      ∧ ((s.history.take (s.historyStep + 1).toNat).length : Int) = s.historyStep + 1
      ∧ (saveToHistory api s).historyStep = s.historyStep + 1
      ∧ (saveToHistory api s).historyStep = ((saveToHistory api s).history.length : Int) - 1
      ∧ index (saveToHistory api s).history (saveToHistory api s).historyStep
          = some (api.toDataURL s.canvas.pixels) := by
  have hs : slice s.history 0 (s.historyStep + 1)
      = s.history.take (s.historyStep + 1).toNat := slice_zero _ _ (by omega)
  have hlen : ((s.history.take (s.historyStep + 1).toNat).length : Int) = s.historyStep + 1 := by
    rw [List.length_take]
    omega
  refine ⟨?_, hlen, ?_, ?_, ?_⟩
  · simp only [saveToHistory, hs]
  · simp only [saveToHistory, hs, List.length_append, List.length_singleton]
    push_cast
    omega
  · simp only [saveToHistory]
  · simp only [saveToHistory, hs, List.length_append, List.length_singleton]
    push_cast
    rw [add_sub_cancel_right]
    exact index_append_length _ _

/-- Witness of C1: a history of three snapshots with the cursor on the second. -/
theorem saveToHistory_truncates_and_appends_witness :
    ((-1 : Int) ≤ (sample ["a", "b", "c"] 1 "x").historyStep
      ∧ (sample ["a", "b", "c"] 1 "x").historyStep
          < ((sample ["a", "b", "c"] 1 "x").history.length : Int))
    ∧ (saveToHistory onePixel (sample ["a", "b", "c"] 1 "x")).history = ["a", "b", "x"]
    ∧ (saveToHistory onePixel (sample ["a", "b", "c"] 1 "x")).historyStep = 2 :=
  ⟨⟨by decide, by decide⟩,
   (saveToHistory_truncates_and_appends onePixel (sample ["a", "b", "c"] 1 "x")
      (by decide) (by decide)).1,
   (saveToHistory_truncates_and_appends onePixel (sample ["a", "b", "c"] 1 "x")
      (by decide) (by decide)).2.2.1⟩

theorem loadSnapshot_pixels (api : CanvasApi Buffer Image Snapshot) (c : Canvas Buffer)
    (src : Option Snapshot) (snap : Snapshot) (img : Image)
    (hsrc : src = some snap) (himg : api.decode snap = some img) :
    (loadSnapshot api c src).pixels = api.drawImage (api.clearRect c.pixels) img := by
  simp [loadSnapshot, hsrc, himg]

/-- C2: with cursor > 0, undo moves the cursor to cursor-1, keeps the history,
and the buffer becomes the decoded history[cursor-1] drawn on the cleared canvas
(the encoded buffer itself when decoding is lossless); with cursor <= 0, undo
changes nothing. -/
theorem undo_restores_previous (api : CanvasApi Buffer Image Snapshot)
    (s : EditorState Buffer Snapshot) :
    (0 < s.historyStep →
        (undo api s).historyStep = s.historyStep - 1
        ∧ (undo api s).history = s.history
        ∧ (∀ snap img, index s.history (s.historyStep - 1) = some snap →
            api.decode snap = some img →
            (undo api s).canvas.pixels = api.drawImage (api.clearRect s.canvas.pixels) img)
        ∧ (∀ b, Lossless api → index s.history (s.historyStep - 1) = some (api.toDataURL b) →
            (undo api s).canvas.pixels = b))
    ∧ (s.historyStep ≤ 0 → undo api s = s) := by
  constructor
  · intro h
    have hu : undo api s =
        { s with canvas := loadSnapshot api s.canvas (index s.history (s.historyStep - 1)),
                 historyStep := s.historyStep - 1 } := by
      simp [undo, h]
    refine ⟨by rw [hu], by rw [hu], ?_, ?_⟩
    · intro snap img hsnap himg
      rw [hu]
      exact loadSnapshot_pixels api s.canvas _ snap img hsnap himg
    · intro b hl hsnap
      obtain ⟨img, himg, hdraw⟩ := hl b s.canvas.pixels
      rw [hu]
      exact (loadSnapshot_pixels api s.canvas _ _ img hsnap himg).trans hdraw
  · intro h
    have : ¬ s.historyStep > 0 := not_lt.mpr h
    simp [undo, this]

/-- C3: with cursor < length(history)-1, redo moves the cursor to cursor+1,
keeps the history, and the buffer becomes the decoded history[cursor+1] drawn on
the cleared canvas (the encoded buffer itself when decoding is lossless); with
cursor >= length(history)-1, redo changes nothing. -/
theorem redo_restores_next (api : CanvasApi Buffer Image Snapshot)
    (s : EditorState Buffer Snapshot) :
    (s.historyStep < (s.history.length : Int) - 1 →
        (redo api s).historyStep = s.historyStep + 1
        ∧ (redo api s).history = s.history
        ∧ (∀ snap img, index s.history (s.historyStep + 1) = some snap →
            api.decode snap = some img →
            (redo api s).canvas.pixels = api.drawImage (api.clearRect s.canvas.pixels) img)
        ∧ (∀ b, Lossless api → index s.history (s.historyStep + 1) = some (api.toDataURL b) →
            (redo api s).canvas.pixels = b))
    ∧ ((s.history.length : Int) - 1 ≤ s.historyStep → redo api s = s) := by
  constructor
  · intro h
    have hu : redo api s =
        { s with canvas := loadSnapshot api s.canvas (index s.history (s.historyStep + 1)),
                 historyStep := s.historyStep + 1 } := by
      simp [redo, h]
    refine ⟨by rw [hu], by rw [hu], ?_, ?_⟩
    · intro snap img hsnap himg
      rw [hu]
      exact loadSnapshot_pixels api s.canvas _ snap img hsnap himg
    · intro b hl hsnap
      obtain ⟨img, himg, hdraw⟩ := hl b s.canvas.pixels
      rw [hu]
      exact (loadSnapshot_pixels api s.canvas _ _ img hsnap himg).trans hdraw
  · intro h
    have : ¬ s.historyStep < (s.history.length : Int) - 1 := not_lt.mpr h
    simp [redo, this]

theorem onePixel_lossless : Lossless onePixel :=
  fun b _ => ⟨b, rfl, rfl⟩

/-- Witness of C2: undo from the third of three snapshots shows the second. -/
theorem undo_restores_previous_witness :
    (undo onePixel (sample ["a", "b", "c"] 2 "c")).historyStep = 1
    ∧ (undo onePixel (sample ["a", "b", "c"] 2 "c")).canvas.pixels = "b"
    ∧ undo onePixel (sample ["a", "b", "c"] 0 "a") = sample ["a", "b", "c"] 0 "a" :=
  ⟨((undo_restores_previous onePixel (sample ["a", "b", "c"] 2 "c")).1 (by decide)).1,
   ((undo_restores_previous onePixel (sample ["a", "b", "c"] 2 "c")).1 (by decide)).2.2.2
      "b" onePixel_lossless rfl,
   (undo_restores_previous onePixel (sample ["a", "b", "c"] 0 "a")).2 (by decide)⟩

/-- Witness of C3: redo from the first of three snapshots shows the second. -/
theorem redo_restores_next_witness :
    (redo onePixel (sample ["a", "b", "c"] 0 "a")).historyStep = 1
    ∧ (redo onePixel (sample ["a", "b", "c"] 0 "a")).canvas.pixels = "b"
    ∧ redo onePixel (sample ["a", "b", "c"] 2 "c") = sample ["a", "b", "c"] 2 "c" :=
  ⟨((redo_restores_next onePixel (sample ["a", "b", "c"] 0 "a")).1 (by decide)).1,
   ((redo_restores_next onePixel (sample ["a", "b", "c"] 0 "a")).1 (by decide)).2.2.2
      "b" onePixel_lossless rfl,
   (redo_restores_next onePixel (sample ["a", "b", "c"] 2 "c")).2 (by decide)⟩

/-- C4: in every state reached from the initial state (history empty, cursor
-1) by any sequence of handler calls, a non-empty history has
0 <= cursor < length(history), and the history is empty exactly when the cursor
is -1. -/
theorem cursor_in_range_of_reachable (api : CanvasApi Buffer Image Snapshot)
    (as : List Action) :
    ((run api as (initialState api)).history ≠ [] →
        0 ≤ (run api as (initialState api)).historyStep
        ∧ (run api as (initialState api)).historyStep
            < ((run api as (initialState api)).history.length : Int))
    ∧ ((run api as (initialState api)).history = []
        ↔ (run api as (initialState api)).historyStep = -1) := by
  have h : CursorValid (run api as (initialState api)) :=
    run_invariant api CursorValid (cursorValid_step api) as _ (cursorValid_initialState api)
  rcases h with ⟨h1, h2⟩ | ⟨h1, h2⟩
  · exact ⟨fun hne => absurd h1 hne, fun _ => h2, fun _ => h1⟩
  · refine ⟨fun _ => ⟨h1, h2⟩, fun he => ?_, fun hc => ?_⟩
    · rw [he] at h2
      simp at h2
      omega
    · omega

/-- C5: with 0 < cursor < length(history), undo followed at once by redo gives
the same history and the same cursor, and the buffer is the decoded
history[cursor], the snapshot current before the undo, drawn on the cleared
canvas (the encoded buffer itself when decoding is lossless). -/
theorem undo_then_redo (api : CanvasApi Buffer Image Snapshot)
    (s : EditorState Buffer Snapshot)
    (hlo : 0 < s.historyStep) (hhi : s.historyStep < (s.history.length : Int)) :
    (redo api (undo api s)).history = s.history
    ∧ (redo api (undo api s)).historyStep = s.historyStep
    ∧ (∃ snap, index s.history s.historyStep = some snap)
    ∧ (∀ snap img, index s.history s.historyStep = some snap → api.decode snap = some img →
        (redo api (undo api s)).canvas.pixels
          = api.drawImage (api.clearRect (undo api s).canvas.pixels) img)
    ∧ (∀ b, Lossless api → index s.history s.historyStep = some (api.toDataURL b) →
        (redo api (undo api s)).canvas.pixels = b) := by
  have hu := undo_of_pos api s hlo
  have hlt : (undo api s).historyStep < ((undo api s).history.length : Int) - 1 := by
    rw [hu]
    show s.historyStep - 1 < (s.history.length : Int) - 1
    omega
  have hr := redo_of_lt api (undo api s) hlt
  have hstep : (undo api s).historyStep + 1 = s.historyStep := by
    rw [hu]
    show s.historyStep - 1 + 1 = s.historyStep
    omega
  have hhist : (undo api s).history = s.history := undo_history api s
  rw [hstep, hhist] at hr
  refine ⟨by rw [hr], by rw [hr], ?_, ?_, ?_⟩
  · obtain ⟨n, hn⟩ := Int.eq_ofNat_of_zero_le (le_of_lt hlo)
    rw [hn, index_ofNat]
    have : n < s.history.length := by omega
    exact ⟨s.history.get ⟨n, this⟩, List.get?_eq_get this⟩
  · intro snap img hsnap himg
    rw [hr]
    exact loadSnapshot_pixels api _ _ snap img hsnap himg
  · intro b hl hsnap
    obtain ⟨img, himg, hdraw⟩ := hl b (undo api s).canvas.pixels
    rw [hr]
    exact (loadSnapshot_pixels api _ _ _ img hsnap himg).trans hdraw

/-- Witness of C5: undo and redo from the third of three snapshots. -/
theorem undo_then_redo_witness :
    (redo onePixel (undo onePixel (sample ["a", "b", "c"] 2 "c"))).history = ["a", "b", "c"]
    ∧ (redo onePixel (undo onePixel (sample ["a", "b", "c"] 2 "c"))).historyStep = 2
    ∧ (redo onePixel (undo onePixel (sample ["a", "b", "c"] 2 "c"))).canvas.pixels = "c" :=
  ⟨(undo_then_redo onePixel (sample ["a", "b", "c"] 2 "c") (by decide) (by decide)).1,
   (undo_then_redo onePixel (sample ["a", "b", "c"] 2 "c") (by decide) (by decide)).2.1,
   (undo_then_redo onePixel (sample ["a", "b", "c"] 2 "c") (by decide) (by decide)).2.2.2.2
      "c" onePixel_lossless rfl⟩

/-- C6: with 0 <= cursor < length(history)-1, redo followed at once by undo
gives the same history and the same cursor, and the buffer is the decoded
history[cursor], the snapshot current before the redo, drawn on the cleared
canvas (the encoded buffer itself when decoding is lossless). -/
theorem redo_then_undo (api : CanvasApi Buffer Image Snapshot)
    (s : EditorState Buffer Snapshot)
    (hlo : 0 ≤ s.historyStep) (hhi : s.historyStep < (s.history.length : Int) - 1) :
    (undo api (redo api s)).history = s.history
    ∧ (undo api (redo api s)).historyStep = s.historyStep
    ∧ (∃ snap, index s.history s.historyStep = some snap)
    ∧ (∀ snap img, index s.history s.historyStep = some snap → api.decode snap = some img →
        (undo api (redo api s)).canvas.pixels
          = api.drawImage (api.clearRect (redo api s).canvas.pixels) img)
    ∧ (∀ b, Lossless api → index s.history s.historyStep = some (api.toDataURL b) →
        (undo api (redo api s)).canvas.pixels = b) := by
  have hr := redo_of_lt api s hhi
  have hpos : 0 < (redo api s).historyStep := by
    rw [hr]
    show 0 < s.historyStep + 1
    omega
  have hu := undo_of_pos api (redo api s) hpos
  have hstep : (redo api s).historyStep - 1 = s.historyStep := by
    rw [hr]
    show s.historyStep + 1 - 1 = s.historyStep
    omega
  have hhist : (redo api s).history = s.history := redo_history api s
  rw [hstep, hhist] at hu
  refine ⟨by rw [hu], by rw [hu], ?_, ?_, ?_⟩
  · obtain ⟨n, hn⟩ := Int.eq_ofNat_of_zero_le hlo
    rw [hn, index_ofNat]
    have : n < s.history.length := by omega
    exact ⟨s.history.get ⟨n, this⟩, List.get?_eq_get this⟩
  · intro snap img hsnap himg
    rw [hu]
    exact loadSnapshot_pixels api _ _ snap img hsnap himg
  · intro b hl hsnap
    obtain ⟨img, himg, hdraw⟩ := hl b (redo api s).canvas.pixels
    rw [hu]
    exact (loadSnapshot_pixels api _ _ _ img hsnap himg).trans hdraw

/-- Witness of C6: redo and undo from the first of three snapshots. -/
theorem redo_then_undo_witness :
    (undo onePixel (redo onePixel (sample ["a", "b", "c"] 0 "a"))).history = ["a", "b", "c"]
    ∧ (undo onePixel (redo onePixel (sample ["a", "b", "c"] 0 "a"))).historyStep = 0
    ∧ (undo onePixel (redo onePixel (sample ["a", "b", "c"] 0 "a"))).canvas.pixels = "a" :=
  ⟨(redo_then_undo onePixel (sample ["a", "b", "c"] 0 "a") (by decide) (by decide)).1,
   (redo_then_undo onePixel (sample ["a", "b", "c"] 0 "a") (by decide) (by decide)).2.1,
   (redo_then_undo onePixel (sample ["a", "b", "c"] 0 "a") (by decide) (by decide)).2.2.2.2
      "a" onePixel_lossless rfl⟩

theorem paint_history (b : Buffer) (s : EditorState Buffer Snapshot) :
    (paint b s).history = s.history ∧ (paint b s).historyStep = s.historyStep
      ∧ (paint b s).canvas.pixels = b :=
  ⟨rfl, rfl, rfl⟩

/-- The commit of a buffer `b` at a cursor `c >= -1`: the first `c+1` entries
followed by the snapshot of `b`, with the cursor on it. -/
theorem commit_paint (api : CanvasApi Buffer Image Snapshot) (s : EditorState Buffer Snapshot)
    (b : Buffer) (hlo : -1 ≤ s.historyStep) :
    (saveToHistory api (paint b s)).history
        = s.history.take (s.historyStep + 1).toNat ++ [api.toDataURL b]
    ∧ (saveToHistory api (paint b s)).historyStep
        = ((s.history.take (s.historyStep + 1).toNat).length : Int) := by
  have h := saveToHistory_history api (paint b s) hlo
  refine ⟨h, ?_⟩
  rw [saveToHistory_historyStep, h]
  simp [paint]

/-- C7: a commit after an undo discards every snapshot beyond the cursor. For a
cursor c > 0, undo followed by the commit of a buffer b (the restored buffer
included) gives the first c entries followed by the snapshot of b, the cursor
on it, and redo is then a no-op. From history [initial] with cursor 0, the
commits of A and B, an undo and the commit of C give [initial, A, C] with
cursor 2. -/
theorem commit_after_undo_discards (api : CanvasApi Buffer Image Snapshot) :
    (∀ (s : EditorState Buffer Snapshot) (b : Buffer), 0 < s.historyStep →
        (saveToHistory api (paint b (undo api s))).history
            = s.history.take s.historyStep.toNat ++ [api.toDataURL b]
        ∧ (saveToHistory api (paint b (undo api s))).historyStep
            = ((s.history.take s.historyStep.toNat).length : Int)
        ∧ redo api (saveToHistory api (paint b (undo api s)))
            = saveToHistory api (paint b (undo api s)))
    ∧ (∀ (s : EditorState Buffer Snapshot), 0 < s.historyStep →
        (saveToHistory api (undo api s)).history
            = s.history.take s.historyStep.toNat ++ [api.toDataURL (undo api s).canvas.pixels]
        ∧ redo api (saveToHistory api (undo api s)) = saveToHistory api (undo api s))
    ∧ (∀ (s : EditorState Buffer Snapshot) (initial : Snapshot) (a b c : Buffer),
        s.history = [initial] → s.historyStep = 0 →
        (saveToHistory api (paint c (undo api
            (saveToHistory api (paint b (saveToHistory api (paint a s))))))).history
          = [initial, api.toDataURL a, api.toDataURL c]
        ∧ (saveToHistory api (paint c (undo api
            (saveToHistory api (paint b (saveToHistory api (paint a s))))))).historyStep
          = 2) := by
  have key : ∀ (s : EditorState Buffer Snapshot) (b : Buffer), 0 < s.historyStep →
      (saveToHistory api (paint b (undo api s))).history
          = s.history.take s.historyStep.toNat ++ [api.toDataURL b]
      ∧ (saveToHistory api (paint b (undo api s))).historyStep
          = ((s.history.take s.historyStep.toNat).length : Int)
      ∧ redo api (saveToHistory api (paint b (undo api s)))
          = saveToHistory api (paint b (undo api s)) := by
    intro s b h
    have hstep : (undo api s).historyStep = s.historyStep - 1 := by rw [undo_of_pos api s h]
    have hc := commit_paint api (undo api s) b (by rw [hstep]; omega)
    rw [undo_history, hstep, sub_add_cancel] at hc
    exact ⟨hc.1, hc.2, redo_of_ge api _ (le_of_eq (saveToHistory_historyStep api _).symm)⟩
  refine ⟨key, ?_, ?_⟩
  · intro s h
    have hk := key s (undo api s).canvas.pixels h
    exact ⟨hk.1, hk.2.2⟩
  · intro s initial a b c hh hs
    have h1 := commit_paint api s a (by omega)
    rw [hh, hs] at h1
    have e1 : (saveToHistory api (paint a s)).history = [initial, api.toDataURL a] := h1.1
    have e1s : (saveToHistory api (paint a s)).historyStep = 1 := h1.2
    have h2 := commit_paint api (saveToHistory api (paint a s)) b (by omega)
    rw [e1, e1s] at h2
    have e2 : (saveToHistory api (paint b (saveToHistory api (paint a s)))).history
        = [initial, api.toDataURL a, api.toDataURL b] := h2.1
    have e2s : (saveToHistory api (paint b (saveToHistory api (paint a s)))).historyStep = 2 :=
      h2.2
    have h3 := key (saveToHistory api (paint b (saveToHistory api (paint a s)))) c (by omega)
    rw [e2, e2s] at h3
    exact ⟨h3.1, h3.2.1⟩

/-- Witness of C7: the sequence commit(A), commit(B), undo, commit(C) on the
one-pixel editor. -/
theorem commit_after_undo_discards_witness :
    (saveToHistory onePixel (paint "C" (undo onePixel (saveToHistory onePixel
        (paint "B" (saveToHistory onePixel (paint "A" (sample ["initial"] 0 "initial")))))))).history
      = ["initial", "A", "C"]
    ∧ (saveToHistory onePixel (paint "C" (undo onePixel
        (sample ["initial", "A", "B"] 2 "B")))).history = ["initial", "A", "C"] :=
  ⟨((commit_after_undo_discards onePixel).2.2 (sample ["initial"] 0 "initial") "initial"
      "A" "B" "C" rfl rfl).1,
   ((commit_after_undo_discards onePixel).1 (sample ["initial", "A", "B"] 2 "B") "C"
      (by decide)).1⟩

theorem atNewest_saveToHistory (api : CanvasApi Buffer Image Snapshot)
    (s : EditorState Buffer Snapshot) : AtNewest (saveToHistory api s) :=
  saveToHistory_historyStep api s

theorem atNewest_step (api : CanvasApi Buffer Image Snapshot) (a : Action)
    (hne : a ≠ Action.undo) (s : EditorState Buffer Snapshot) (h : AtNewest s) :
    AtNewest (step api a s) := by
  cases a with
  | saveToHistory => exact atNewest_saveToHistory api s
  | undo => exact absurd rfl hne
  | redo =>
    show AtNewest (redo api s)
    rw [redo_of_ge api s (le_of_eq h.symm)]
    exact h
  | clearCanvas => exact atNewest_saveToHistory api _
  | startDrawing rect e => exact h
  | draw rect e =>
    show AtNewest (draw api rect e s)
    obtain ⟨h1, h2⟩ := draw_history api rect e s
    unfold AtNewest
    rw [h1, h2]
    exact h
  | stopDrawing =>
    show AtNewest (stopDrawing api s)
    unfold stopDrawing
    split
    · exact atNewest_saveToHistory api _
    · exact h
  | setTool t => exact h
  | setColor c => exact h
  | setLineWidth w => exact h

theorem history_ne_nil_step (api : CanvasApi Buffer Image Snapshot) (a : Action)
    (s : EditorState Buffer Snapshot) (h : s.history ≠ []) : (step api a s).history ≠ [] := by
  cases a with
  | saveToHistory => exact saveToHistory_history_ne_nil api s
  | undo => show (undo api s).history ≠ []; rw [undo_history]; exact h
  | redo => show (redo api s).history ≠ []; rw [redo_history]; exact h
  | clearCanvas => exact saveToHistory_history_ne_nil api _
  | startDrawing rect e => exact h
  | draw rect e => show (draw api rect e s).history ≠ []; rw [(draw_history api rect e s).1]; exact h
  | stopDrawing =>
    show (stopDrawing api s).history ≠ []
    unfold stopDrawing
    split
    · exact saveToHistory_history_ne_nil api _
    · exact h
  | setTool t => exact h
  | setColor c => exact h
  | setLineWidth w => exact h

theorem run_append (api : CanvasApi Buffer Image Snapshot) (as bs : List Action)
    (s : EditorState Buffer Snapshot) : run api (as ++ bs) s = run api bs (run api as s) := by
  simp [run, List.foldl_append]

theorem index_last (xs : List Snapshot) (hne : xs ≠ []) :
    index xs ((xs.length : Int) - 1) = xs.getLast? := by
  have hpos : 0 < xs.length := List.length_pos.mpr hne
  have hcast : (xs.length : Int) - 1 = ((xs.length - 1 : Nat) : Int) := by omega
  rw [hcast, index_ofNat, List.get?_eq_getElem?, List.getLast?_eq_getElem?]

/-- C8: in every state reached from the initial state by handler calls none of
which is an undo, the cursor is the last index of the history and redo changes
nothing; once saveToHistory was among the calls, the history is non-empty and
the cursor addresses its last entry. -/
theorem redo_noop_on_fresh_history (api : CanvasApi Buffer Image Snapshot)
    (as : List Action) (hundo : Action.undo ∉ as) :
    (run api as (initialState api)).historyStep
        = ((run api as (initialState api)).history.length : Int) - 1
    ∧ redo api (run api as (initialState api)) = run api as (initialState api)
    ∧ (Action.saveToHistory ∈ as →
        (run api as (initialState api)).history ≠ []
        ∧ 0 ≤ (run api as (initialState api)).historyStep
        ∧ index (run api as (initialState api)).history
            (run api as (initialState api)).historyStep
          = (run api as (initialState api)).history.getLast?) := by
  have hnew : ∀ (l : List Action), Action.undo ∉ l → ∀ s : EditorState Buffer Snapshot,
      AtNewest s → AtNewest (run api l s) := by
    intro l
    induction l with
    | nil => intro _ s hs; exact hs
    | cons a l ih =>
      intro hl s hs
      have ha : a ≠ Action.undo := fun e => hl (e ▸ List.mem_cons_self _ _)
      exact ih (fun hm => hl (List.mem_cons_of_mem _ hm)) _ (atNewest_step api a ha s hs)
  have h : AtNewest (run api as (initialState api)) := hnew as hundo _ rfl
  refine ⟨h, redo_of_ge api _ (le_of_eq h.symm), ?_⟩
  intro hmem
  obtain ⟨l1, l2, hsplit⟩ := List.append_of_mem hmem
  have hne : (run api as (initialState api)).history ≠ [] := by
    rw [hsplit, run_append, run_cons]
    exact run_invariant api (fun t => t.history ≠ []) (history_ne_nil_step api) l2 _
      (saveToHistory_history_ne_nil api _)
  have hpos : 0 < (run api as (initialState api)).history.length := List.length_pos.mpr hne
  refine ⟨hne, ?_, ?_⟩
  · rw [h]; omega
  · rw [h]; exact index_last _ hne

/-- Witness of C8: a commit and a clear, no undo. -/
theorem redo_noop_on_fresh_history_witness :
    redo onePixel (run onePixel [Action.saveToHistory, Action.clearCanvas] (initialState onePixel))
      = run onePixel [Action.saveToHistory, Action.clearCanvas] (initialState onePixel)
    ∧ (run onePixel [Action.saveToHistory, Action.clearCanvas]
        (initialState onePixel)).history ≠ [] :=
  ⟨(redo_noop_on_fresh_history onePixel [Action.saveToHistory, Action.clearCanvas]
      (by decide)).2.1,
   ((redo_noop_on_fresh_history onePixel [Action.saveToHistory, Action.clearCanvas]
      (by decide)).2.2 (by decide)).1⟩

/-! ## The buffer and the entry under the cursor -/

theorem mem_slice {α : Type} (xs : List α) (i j : Int) (a : α) (h : a ∈ slice xs i j) :
    a ∈ xs :=
  List.mem_of_mem_drop (List.mem_of_mem_take h)

theorem index_mem {α : Type} (xs : List α) (i : Int) (a : α) (h : index xs i = some a) :
    a ∈ xs := by
  unfold index at h
  split at h
  · exact absurd h (by simp)
  · exact List.get?_mem h

theorem index_exists {α : Type} (xs : List α) (i : Int) (hlo : 0 ≤ i)
    (hhi : i < (xs.length : Int)) : ∃ a, index xs i = some a := by
  obtain ⟨n, hn⟩ := Int.eq_ofNat_of_zero_le hlo
  rw [hn, index_ofNat]
  have : n < xs.length := by omega
  exact ⟨xs.get ⟨n, this⟩, List.get?_eq_get this⟩

theorem shows_of_lossless (api : CanvasApi Buffer Image Snapshot) (hl : Lossless api)
    (b : Buffer) : Shows api b (api.toDataURL b) := by
  obtain ⟨img, himg, _⟩ := hl b b
  refine ⟨img, himg, fun c => ?_⟩
  obtain ⟨img2, himg2, hdraw⟩ := hl b c
  rw [himg] at himg2
  cases himg2
  exact hdraw

theorem bufferIsCurrent_of_index (api : CanvasApi Buffer Image Snapshot) (hl : Lossless api)
    (s : EditorState Buffer Snapshot)
    (h : index s.history s.historyStep = some (api.toDataURL s.canvas.pixels)) :
    BufferIsCurrent api s :=
  ⟨_, h, shows_of_lossless api hl _⟩

theorem encoded_saveToHistory (api : CanvasApi Buffer Image Snapshot)
    (s : EditorState Buffer Snapshot) (h : Encoded api s) : Encoded api (saveToHistory api s) := by
  intro snap hmem
  simp only [saveToHistory, List.mem_append, List.mem_singleton] at hmem
  rcases hmem with hm | hm
  · exact h snap (mem_slice _ _ _ _ hm)
  · exact ⟨_, hm⟩

theorem loaded_index (api : CanvasApi Buffer Image Snapshot) (hl : Lossless api)
    (s : EditorState Buffer Snapshot) (he : Encoded api s) (i : Int)
    (hlo : 0 ≤ i) (hhi : i < (s.history.length : Int)) :
    index s.history i
      = some (api.toDataURL (loadSnapshot api s.canvas (index s.history i)).pixels) := by
  obtain ⟨snap, hsnap⟩ := index_exists s.history i hlo hhi
  obtain ⟨b, hb⟩ := he snap (index_mem _ _ _ hsnap)
  obtain ⟨img, himg, hdraw⟩ := hl b s.canvas.pixels
  rw [hb] at hsnap
  rw [loadSnapshot_pixels api s.canvas _ _ img hsnap himg, hdraw, hsnap]

theorem undo_index (api : CanvasApi Buffer Image Snapshot) (hl : Lossless api)
    (s : EditorState Buffer Snapshot) (hv : CursorValid s) (he : Encoded api s)
    (h : 0 < s.historyStep) :
    index (undo api s).history (undo api s).historyStep
      = some (api.toDataURL (undo api s).canvas.pixels) := by
  rw [undo_of_pos api s h]
  have hhi : s.historyStep - 1 < (s.history.length : Int) := by
    rcases hv with ⟨_, h1⟩ | ⟨_, h2⟩ <;> omega
  exact loaded_index api hl s he (s.historyStep - 1) (by omega) hhi

theorem redo_index (api : CanvasApi Buffer Image Snapshot) (hl : Lossless api)
    (s : EditorState Buffer Snapshot) (hv : CursorValid s) (he : Encoded api s)
    (h : s.historyStep < (s.history.length : Int) - 1) :
    index (redo api s).history (redo api s).historyStep
      = some (api.toDataURL (redo api s).canvas.pixels) := by
  rw [redo_of_lt api s h]
  have hlo : 0 ≤ s.historyStep + 1 := by
    rcases hv with ⟨_, h1⟩ | ⟨h2, _⟩ <;> omega
  exact loaded_index api hl s he (s.historyStep + 1) hlo (by omega)

theorem draw_isDrawing (api : CanvasApi Buffer Image Snapshot) (rect : DOMRect) (e : MouseEvent)
    (s : EditorState Buffer Snapshot) : (draw api rect e s).isDrawing = s.isDrawing := by
  unfold draw
  split <;> rfl

theorem draw_of_idle (api : CanvasApi Buffer Image Snapshot) (rect : DOMRect) (e : MouseEvent)
    (s : EditorState Buffer Snapshot) (h : s.isDrawing = false) : draw api rect e s = s := by
  simp [draw, h]

theorem synced_saveToHistory (api : CanvasApi Buffer Image Snapshot)
    (s : EditorState Buffer Snapshot) (he : Encoded api s) :
    Encoded api (saveToHistory api s) ∧ Synced api (saveToHistory api s) :=
  ⟨encoded_saveToHistory api s he, fun _ _ => saveToHistory_index api s⟩

theorem inv_step (api : CanvasApi Buffer Image Snapshot) (hl : Lossless api) (a : Action)
    (s : EditorState Buffer Snapshot) (h : Inv api s) : Inv api (step api a s) := by
  obtain ⟨hv, he, hsync⟩ := h
  refine ⟨cursorValid_step api a s hv, ?_⟩
  cases a with
  | saveToHistory => exact synced_saveToHistory api s he
  | undo =>
    show Encoded api (undo api s) ∧ Synced api (undo api s)
    rcases le_or_lt s.historyStep 0 with hc | hc
    · rw [undo_of_nonpos api s hc]; exact ⟨he, hsync⟩
    · refine ⟨?_, fun _ _ => undo_index api hl s hv he hc⟩
      intro snap hm
      rw [undo_history] at hm
      exact he snap hm
  | redo =>
    show Encoded api (redo api s) ∧ Synced api (redo api s)
    rcases lt_or_le s.historyStep ((s.history.length : Int) - 1) with hc | hc
    · refine ⟨?_, fun _ _ => redo_index api hl s hv he hc⟩
      intro snap hm
      rw [redo_history] at hm
      exact he snap hm
    · rw [redo_of_ge api s hc]; exact ⟨he, hsync⟩
  | clearCanvas =>
    show Encoded api (clearCanvas api s) ∧ Synced api (clearCanvas api s)
    unfold clearCanvas
    refine synced_saveToHistory api _ ?_
    exact he
  | startDrawing rect e =>
    exact ⟨he, fun hd => absurd (show true = false from hd) (by decide)⟩
  | draw rect e =>
    show Encoded api (draw api rect e s) ∧ Synced api (draw api rect e s)
    cases hd : s.isDrawing with
    | false => rw [draw_of_idle api rect e s hd]; exact ⟨he, hsync⟩
    | true =>
      refine ⟨?_, fun hd2 => ?_⟩
      · intro snap hm
        rw [(draw_history api rect e s).1] at hm
        exact he snap hm
      · rw [draw_isDrawing, hd] at hd2
        exact absurd hd2 (by simp)
  | stopDrawing =>
    show Encoded api (stopDrawing api s) ∧ Synced api (stopDrawing api s)
    unfold stopDrawing
    split
    · refine synced_saveToHistory api _ ?_
      exact he
    · exact ⟨he, hsync⟩
  | setTool t => exact ⟨he, hsync⟩
  | setColor c => exact ⟨he, hsync⟩
  | setLineWidth w => exact ⟨he, hsync⟩

theorem inv_initialState (api : CanvasApi Buffer Image Snapshot) : Inv api (initialState api) :=
  ⟨cursorValid_initialState api, fun _ hm => absurd hm (by simp [initialState]),
   fun _ hne => absurd rfl hne⟩

end History

/-! ## The pointer-event translator -/

section Pointer

/-- C10: for a display rectangle of non-zero width and height, every pointer
position and every buffer size, getMousePos returns
x = (clientX - rect.left) * (bufferWidth / rect.width) and
y = (clientY - rect.top) * (bufferHeight / rect.height), unclamped, over the
rationals. -/
theorem getMousePos_linear (canvasWidth canvasHeight : ℚ) (rect : DOMRect) (e : MouseEvent)
    (hw : rect.width ≠ 0) (hh : rect.height ≠ 0) :
    getMousePos canvasWidth canvasHeight rect e
      = some { x := (e.clientX - rect.left) * (canvasWidth / rect.width),
               y := (e.clientY - rect.top) * (canvasHeight / rect.height) } := by
  simp [getMousePos, jsDiv, hw, hh]

/-- Witness of C10: a pointer left of and below a half-size display rectangle
maps outside the 512 x 512 buffer, to (-20, 532). -/
theorem getMousePos_linear_witness :
    (256 : ℚ) ≠ 0
    ∧ getMousePos 512 512 { left := 10, top := 10, width := 256, height := 256 }
        { clientX := 0, clientY := 276 }
      = some { x := (0 - 10) * (512 / 256), y := (276 - 10) * (512 / 256) }
    ∧ (0 - 10) * (512 / 256 : ℚ) = -20 ∧ (276 - 10) * (512 / 256 : ℚ) = 532 :=
  ⟨by norm_num,
   getMousePos_linear 512 512 { left := 10, top := 10, width := 256, height := 256 }
     { clientX := 0, clientY := 276 } (by norm_num) (by norm_num),
   by norm_num, by norm_num⟩

/-- C11, as stated, fails in the arithmetic of the source: on the 512 x 512
canvas, for a 98 x 98 display rectangle at (10, 10), every number a double,
the centre (59, 59) maps to 256 - 2^-45 (255.99999999999997), not to 256. -/
theorem getMousePosDouble_centre_off :
    (59 : ℚ) = 10 + 98 / 2
    ∧ getMousePosDouble (Double.int 512) (Double.int 512) (Double.int 10) (Double.int 10)
        (Double.int 98) (Double.int 98) (Double.int 59) (Double.int 59)
      = some ({ mantissa := 9007199254740991, exponent := -45 },
              { mantissa := 9007199254740991, exponent := -45 })
    ∧ Double.toRat { mantissa := 9007199254740991, exponent := -45 } = 256 - 1 / 2 ^ 45
    ∧ Double.toRat { mantissa := 9007199254740991, exponent := -45 } ≠ 512 / 2 := by
  refine ⟨by norm_num, ?_, by norm_num [Double.toRat], by norm_num [Double.toRat]⟩
  set_option maxRecDepth 100000 in
  decide

/-- C11, amended: over exact rational arithmetic, for a display rectangle of
non-zero size and every buffer size, getMousePos maps the centre of the
rectangle to the centre of the buffer; with the 512 x 512 canvas of the
component and a 256 x 256 rectangle at (10, 10), the pointer at (138, 138) maps
to (256, 256), in exact arithmetic and in doubles alike. -/
theorem getMousePos_centre (canvasWidth canvasHeight : ℚ) (rect : DOMRect) (e : MouseEvent)
    (hw : rect.width ≠ 0) (hh : rect.height ≠ 0)
    (hx : e.clientX = rect.left + rect.width / 2)
    (hy : e.clientY = rect.top + rect.height / 2) :
    getMousePos canvasWidth canvasHeight rect e
        = some { x := canvasWidth / 2, y := canvasHeight / 2 }
    ∧ getMousePos ((initialState onePixel).canvas.width : ℚ)
          ((initialState onePixel).canvas.height : ℚ)
          { left := 10, top := 10, width := 256, height := 256 }
          { clientX := 138, clientY := 138 }
        = some { x := 256, y := 256 }
    ∧ (getMousePosDouble (Double.int 512) (Double.int 512) (Double.int 10) (Double.int 10)
          (Double.int 256) (Double.int 256) (Double.int 138) (Double.int 138)).map
        (fun p => (p.1.toRat, p.2.toRat))
        = some (256, 256) := by
  refine ⟨?_, ?_, ?_⟩
  · simp only [getMousePos, jsDiv, hw, hh, if_false, hx, hy]
    congr 2
    · field_simp
      ring
    · field_simp
      ring
  · norm_num [getMousePos, jsDiv, initialState]
  · have h : getMousePosDouble (Double.int 512) (Double.int 512) (Double.int 10)
        (Double.int 10) (Double.int 256) (Double.int 256) (Double.int 138) (Double.int 138)
        = some ({ mantissa := 4503599627370496, exponent := -44 },
                { mantissa := 4503599627370496, exponent := -44 }) := by
      set_option maxRecDepth 100000 in
      decide
    rw [h]
    norm_num [Double.toRat]

/-- Witness of the amended C11: the centre of a 300 x 150 rectangle at (4, 6)
on a 600 x 450 buffer. -/
theorem getMousePos_centre_witness :
    getMousePos 600 450 { left := 4, top := 6, width := 300, height := 150 }
        { clientX := 154, clientY := 81 }
      = some { x := 600 / 2, y := 450 / 2 } :=
  (getMousePos_centre 600 450 { left := 4, top := 6, width := 300, height := 150 }
    { clientX := 154, clientY := 81 } (by norm_num) (by norm_num) (by norm_num)
    (by norm_num)).1

end Pointer

/-! ## The stroke renderer -/

section Stroke

variable {Buffer Image Snapshot : Type}

theorem index_bounds {α : Type} (xs : List α) (i : Int) (a : α) (h : index xs i = some a) :
    0 ≤ i ∧ i < (xs.length : Int) := by
  unfold index at h
  split at h
  · exact absurd h (by simp)
  · rename_i hneg
    have hlt : i.toNat < xs.length := by
      rw [List.get?_eq_getElem?] at h
      exact (List.getElem?_eq_some_iff.mp h).1
    omega

/-- C12: while drawing with a positive line width w, the stroke attributes that
draw sets and strokes with are the colour white for the eraser, whatever the
selected colour, and the selected colour for the pen, both with line width w
and round caps and joins. -/
theorem draw_stroke_style (api : CanvasApi Buffer Image Snapshot) (rect : DOMRect)
    (e : MouseEvent) (s : EditorState Buffer Snapshot) (w : Int)
    (hd : s.isDrawing = true) (hw : s.lineWidth = some w) (hpos : 0 < w) :
    (draw api rect e s).canvas.style
        = { strokeStyle := if s.tool = Tool.eraser then "white" else s.color,
            lineWidth := w, lineCap := "round", lineJoin := "round" }
    ∧ (s.tool = Tool.eraser → (draw api rect e s).canvas.style.strokeStyle = "white")
    ∧ (s.tool = Tool.pen → (draw api rect e s).canvas.style.strokeStyle = s.color)
    ∧ (draw api rect e s).canvas.pixels
        = api.stroke s.canvas.pixels
            { strokeStyle := if s.tool = Tool.eraser then "white" else s.color,
              lineWidth := w, lineCap := "round", lineJoin := "round" }
            (draw api rect e s).canvas.path := by
  have hstyle : ∀ (c : Canvas Buffer) (p : Option Point), (c.lineTo p).style = c.style := by
    intro c p
    unfold Canvas.lineTo
    split
    · split <;> rfl
    · rfl
  have hpix : ∀ (c : Canvas Buffer) (p : Option Point), (c.lineTo p).pixels = c.pixels := by
    intro c p
    unfold Canvas.lineTo
    split
    · split <;> rfl
    · rfl
  have h1 : (draw api rect e s).canvas.style
      = { strokeStyle := if s.tool = Tool.eraser then "white" else s.color,
          lineWidth := w, lineCap := "round", lineJoin := "round" } := by
    simp only [draw, hd, hw, Canvas.setLineWidth, hpos, hstyle]
    simp
  refine ⟨h1, ?_, ?_, ?_⟩
  · intro ht
    rw [h1]
    simp [ht]
  · intro ht
    rw [h1]
    simp [ht]
  · simp only [draw, hd, hw, Canvas.setLineWidth, hpos, hstyle, hpix]
    simp

/-- Witness of C12: the eraser with the colour red selected and width 10. -/
theorem draw_stroke_style_witness :
    (draw onePixel fullRect { clientX := 20, clientY := 20 }
        { sample ["white"] 0 "white" with
            isDrawing := true, tool := Tool.eraser, color := "#ff0000",
            lineWidth := some 10 }).canvas.style.strokeStyle = "white" :=
  (draw_stroke_style onePixel fullRect { clientX := 20, clientY := 20 }
      { sample ["white"] 0 "white" with
          isDrawing := true, tool := Tool.eraser, color := "#ff0000", lineWidth := some 10 }
      10 rfl rfl (by decide)).2.1 rfl

/-- C13: with isDrawing = false, draw ignores the pointer event: the state, and
so the buffer, the history, the cursor and the drawing flag, is unchanged. -/
theorem draw_ignored_when_idle (api : CanvasApi Buffer Image Snapshot) (rect : DOMRect)
    (e : MouseEvent) (s : EditorState Buffer Snapshot) (hd : s.isDrawing = false) :
    draw api rect e s = s
    ∧ (draw api rect e s).canvas.pixels = s.canvas.pixels
    ∧ (draw api rect e s).history = s.history
    ∧ (draw api rect e s).historyStep = s.historyStep
    ∧ (draw api rect e s).isDrawing = false := by
  have h : draw api rect e s = s := by simp [draw, hd]
  rw [h]
  exact ⟨rfl, rfl, rfl, rfl, hd⟩

/-- Witness of C13: a move event on an idle editor. -/
theorem draw_ignored_when_idle_witness :
    draw onePixel fullRect { clientX := 20, clientY := 20 } (sample ["white"] 0 "white")
      = sample ["white"] 0 "white" :=
  (draw_ignored_when_idle onePixel fullRect { clientX := 20, clientY := 20 }
    (sample ["white"] 0 "white") rfl).1

theorem stopDrawing_of_drawing (api : CanvasApi Buffer Image Snapshot)
    (s : EditorState Buffer Snapshot) (hd : s.isDrawing = true) :
    stopDrawing api s = saveToHistory api { s with isDrawing := false } := by
  simp [stopDrawing, hd]

theorem stopDrawing_of_idle (api : CanvasApi Buffer Image Snapshot)
    (s : EditorState Buffer Snapshot) (hd : s.isDrawing = false) : stopDrawing api s = s := by
  simp [stopDrawing, hd]

/-- C14: stopDrawing twice is stopDrawing once. From a drawing state it commits
one snapshot, of the current buffer, after the first cursor+1 entries, puts the
cursor on it and clears the drawing flag; from an idle state it changes
nothing. -/
theorem stopDrawing_idempotent (api : CanvasApi Buffer Image Snapshot)
    (s : EditorState Buffer Snapshot) :
    stopDrawing api (stopDrawing api s) = stopDrawing api s
    ∧ (s.isDrawing = true →
        (stopDrawing api s).isDrawing = false
        ∧ (stopDrawing api s).canvas = s.canvas
        ∧ (-1 ≤ s.historyStep →
            (stopDrawing api s).history
              = s.history.take (s.historyStep + 1).toNat ++ [api.toDataURL s.canvas.pixels])
        ∧ (-1 ≤ s.historyStep → s.historyStep < (s.history.length : Int) →
            ((stopDrawing api s).history.length : Int) = s.historyStep + 2)
        ∧ (stopDrawing api s).historyStep = ((stopDrawing api s).history.length : Int) - 1
        ∧ index (stopDrawing api s).history (stopDrawing api s).historyStep
            = some (api.toDataURL s.canvas.pixels))
    ∧ (s.isDrawing = false → stopDrawing api s = s) := by
  have hidle : (stopDrawing api s).isDrawing = false := by
    cases hd : s.isDrawing with
    | false => rw [stopDrawing_of_idle api s hd]; exact hd
    | true => rw [stopDrawing_of_drawing api s hd]; rfl
  refine ⟨stopDrawing_of_idle api _ hidle, ?_, stopDrawing_of_idle api s⟩
  intro hd
  have hs := stopDrawing_of_drawing api s hd
  have hhist : -1 ≤ s.historyStep → (stopDrawing api s).history
      = s.history.take (s.historyStep + 1).toNat ++ [api.toDataURL s.canvas.pixels] := by
    intro hlo
    rw [hs]
    exact saveToHistory_history api { s with isDrawing := false } hlo
  refine ⟨hidle, by rw [hs]; rfl, hhist, ?_, ?_, ?_⟩
  · intro hlo hhi
    rw [hhist hlo, List.length_append, List.length_take, List.length_singleton]
    omega
  · rw [hs]
    exact saveToHistory_historyStep api _
  · rw [hs]
    exact saveToHistory_index api { s with isDrawing := false }

/-- Witness of C14: pointer-up and pointer-leave after a stroke commit once. -/
theorem stopDrawing_idempotent_witness :
    (stopDrawing onePixel (stopDrawing onePixel
        (run onePixel midStroke (initialState onePixel)))).history = ["white", "#000000"]
    ∧ (stopDrawing onePixel (run onePixel midStroke (initialState onePixel))).isDrawing
        = false :=
  ⟨((stopDrawing_idempotent onePixel (run onePixel midStroke (initialState onePixel))).1 ▸
      ((stopDrawing_idempotent onePixel (run onePixel midStroke (initialState onePixel))).2.1
        rfl).2.2.1 (by decide)),
   ((stopDrawing_idempotent onePixel (run onePixel midStroke (initialState onePixel))).2.1
      rfl).1⟩

/-- C15: startDrawing sets the drawing flag and leaves the buffer, the history
and the cursor unchanged; for a display rectangle of non-zero size the path is
begun anew with the buffer-space image of the pointer as its only point. -/
theorem startDrawing_begins_stroke (rect : DOMRect) (e : MouseEvent)
    (s : EditorState Buffer Snapshot) :
    (startDrawing rect e s).isDrawing = true
    ∧ (startDrawing rect e s).canvas.pixels = s.canvas.pixels
    ∧ (startDrawing rect e s).history = s.history
    ∧ (startDrawing rect e s).historyStep = s.historyStep
    ∧ (rect.width ≠ 0 → rect.height ≠ 0 →
        (startDrawing rect e s).canvas.path
          = [[{ x := (e.clientX - rect.left) * ((s.canvas.width : ℚ) / rect.width),
                y := (e.clientY - rect.top) * ((s.canvas.height : ℚ) / rect.height) }]]) := by
  have hpix : ∀ p : Option Point, (s.canvas.beginPath.moveTo p).pixels = s.canvas.pixels := by
    intro p
    cases p <;> rfl
  refine ⟨rfl, hpix _, rfl, rfl, ?_⟩
  intro hw hh
  simp [startDrawing, getMousePos, jsDiv, hw, hh, Canvas.moveTo, Canvas.beginPath]

/-- Witness of C15: pointer-down at (138, 138) on a half-size canvas at
(10, 10). -/
theorem startDrawing_begins_stroke_witness :
    (startDrawing { left := 10, top := 10, width := 256, height := 256 }
        { clientX := 138, clientY := 138 } (sample ["white"] 0 "white")).canvas.path
      = [[{ x := (138 - 10) * (((sample ["white"] 0 "white").canvas.width : ℚ) / 256),
            y := (138 - 10) * (((sample ["white"] 0 "white").canvas.height : ℚ) / 256) }]]
    ∧ (startDrawing { left := 10, top := 10, width := 256, height := 256 }
        { clientX := 138, clientY := 138 } (sample ["white"] 0 "white")).canvas.pixels
      = "white" :=
  ⟨(startDrawing_begins_stroke { left := 10, top := 10, width := 256, height := 256 }
      { clientX := 138, clientY := 138 } (sample ["white"] 0 "white")).2.2.2.2
      (by norm_num) (by norm_num),
   (startDrawing_begins_stroke { left := 10, top := 10, width := 256, height := 256 }
      { clientX := 138, clientY := 138 } (sample ["white"] 0 "white")).2.1⟩

/-- C16: on an idle editor whose entry under the cursor is the data URL of the
buffer, startDrawing followed by stopDrawing leaves the buffer unchanged and
commits one snapshot after the first cursor+1 entries, equal to the entry that
was under the cursor. -/
theorem click_without_drag_commits (api : CanvasApi Buffer Image Snapshot) (rect : DOMRect)
    (e : MouseEvent) (s r : EditorState Buffer Snapshot)
    (hd : s.isDrawing = false)
    (hcur : index s.history s.historyStep = some (api.toDataURL s.canvas.pixels))
    (hr : r = stopDrawing api (startDrawing rect e s)) :
    r.canvas.pixels = s.canvas.pixels
    ∧ r.isDrawing = s.isDrawing
    ∧ r.history = s.history.take (s.historyStep + 1).toNat ++ [api.toDataURL s.canvas.pixels]
    ∧ (r.history.length : Int) = s.historyStep + 2
    ∧ r.historyStep = s.historyStep + 1
    ∧ index r.history r.historyStep = index s.history s.historyStep
    ∧ (s.historyStep = (s.history.length : Int) - 1 →
        r.history = s.history ++ [api.toDataURL s.canvas.pixels]) := by
  obtain ⟨hlo, hhi⟩ := index_bounds _ _ _ hcur
  have hpix : ∀ p : Option Point, (s.canvas.beginPath.moveTo p).pixels = s.canvas.pixels := by
    intro p
    cases p <;> rfl
  have hs : r = saveToHistory api { startDrawing rect e s with isDrawing := false } := by
    rw [hr]
    exact stopDrawing_of_drawing api _ rfl
  have hp : r.canvas.pixels = s.canvas.pixels := by
    rw [hs]
    exact hpix _
  have hhist : r.history
      = s.history.take (s.historyStep + 1).toNat ++ [api.toDataURL s.canvas.pixels] := by
    rw [hs]
    have h := saveToHistory_history api { startDrawing rect e s with isDrawing := false }
      (by show -1 ≤ s.historyStep; omega)
    rw [h]
    show s.history.take (s.historyStep + 1).toNat
        ++ [api.toDataURL (s.canvas.beginPath.moveTo _).pixels] = _
    rw [hpix]
  have hlen : (r.history.length : Int) = s.historyStep + 2 := by
    rw [hhist, List.length_append, List.length_take, List.length_singleton]
    omega
  have hstep : r.historyStep = s.historyStep + 1 := by
    have h : r.historyStep = (r.history.length : Int) - 1 := by
      rw [hs]
      exact saveToHistory_historyStep api _
    rw [h, hlen]
    omega
  have hidx : index r.history r.historyStep = some (api.toDataURL r.canvas.pixels) := by
    rw [hs]
    exact saveToHistory_index api _
  refine ⟨hp, ?_, hhist, hlen, hstep, ?_, ?_⟩
  · rw [hs, hd]
    rfl
  · rw [hidx, hp, hcur]
  · intro hlast
    rw [hhist, List.take_of_length_le (by omega)]

/-- Witness of C16: a click on a white canvas whose only snapshot is white. -/
theorem click_without_drag_commits_witness :
    (stopDrawing onePixel (startDrawing fullRect { clientX := 10, clientY := 10 }
        (sample ["white"] 0 "white"))).history = ["white", "white"]
    ∧ (stopDrawing onePixel (startDrawing fullRect { clientX := 10, clientY := 10 }
        (sample ["white"] 0 "white"))).canvas.pixels = "white" :=
  ⟨(click_without_drag_commits onePixel fullRect { clientX := 10, clientY := 10 }
      (sample ["white"] 0 "white") _ rfl rfl rfl).2.2.1,
   (click_without_drag_commits onePixel fullRect { clientX := 10, clientY := 10 }
      (sample ["white"] 0 "white") _ rfl rfl rfl).1⟩

end Stroke

/-! ## Opening, clearing and the width control -/

section Surface

variable {Buffer Image Snapshot : Type}

/-- C17: from the initial state, the mount effect with no initial image fills
the buffer white, and with an initial image that decodes draws it scaled to the
whole buffer; in both cases the history is the snapshot of that buffer alone
and the cursor is 0. -/
theorem mountEffect_resets_history (api : CanvasApi Buffer Image Snapshot) :
    ((mountEffect api none (initialState api)).canvas.pixels = api.fillRect api.blank "white"
      ∧ (mountEffect api none (initialState api)).history
          = [api.toDataURL (api.fillRect api.blank "white")]
      ∧ (mountEffect api none (initialState api)).historyStep = 0)
    ∧ (∀ (src : Snapshot) (img : Image), api.decode src = some img →
        (mountEffect api (some src) (initialState api)).canvas.pixels
            = api.drawImageScaled api.blank img
        ∧ (mountEffect api (some src) (initialState api)).history
            = [api.toDataURL (api.drawImageScaled api.blank img)]
        ∧ (mountEffect api (some src) (initialState api)).historyStep = 0) := by
  have hslice : ∀ xs : List Snapshot, slice xs 0 0 = [] := by
    intro xs
    rw [slice_zero xs 0 (le_refl _)]
    rfl
  constructor
  · refine ⟨rfl, ?_, ?_⟩
    · simp [mountEffect, saveToHistory, initialState, hslice]
    · simp [mountEffect, saveToHistory, initialState, hslice]
  · intro src img himg
    refine ⟨?_, ?_, ?_⟩
    · simp [mountEffect, himg, saveToHistory, initialState]
    · simp [mountEffect, himg, saveToHistory, initialState, hslice]
    · simp [mountEffect, himg, saveToHistory, initialState, hslice]

/-- Witness of C17: the one-pixel editor opened on the image `"sketch"`. -/
theorem mountEffect_resets_history_witness :
    (mountEffect onePixel (some "sketch") (initialState onePixel)).history = ["sketch"]
    ∧ (mountEffect onePixel none (initialState onePixel)).history = ["white"] :=
  ⟨((mountEffect_resets_history onePixel).2 "sketch" "sketch" rfl).2.1,
   (mountEffect_resets_history onePixel).1.2.1⟩

/-- C18, as stated, fails: with an initial image that does not decode, the
history stays empty with cursor -1 and the buffer is the untouched fresh
canvas, not a white one. -/
theorem undecodable_image_no_fallback :
    strictPixel.decode "corrupt" = none
    ∧ (mountEffect strictPixel (some "corrupt") (initialState strictPixel)).history = []
    ∧ (mountEffect strictPixel (some "corrupt") (initialState strictPixel)).historyStep = -1
    ∧ (mountEffect strictPixel (some "corrupt") (initialState strictPixel)).canvas.pixels
        = "transparent"
    ∧ (mountEffect strictPixel (some "corrupt") (initialState strictPixel)).canvas.pixels
        ≠ strictPixel.fillRect strictPixel.blank "white" := by
  refine ⟨rfl, rfl, rfl, rfl, ?_⟩
  show "transparent" ≠ "white"
  decide

/-- C18, amended: with an initial image that does not decode, the mount effect
changes nothing: from the initial state the buffer is the fresh canvas, never
partly drawn, the history is empty and the cursor is -1. -/
theorem mountEffect_undecodable (api : CanvasApi Buffer Image Snapshot) (src : Snapshot)
    (s : EditorState Buffer Snapshot) (h : api.decode src = none) :
    mountEffect api (some src) s = s
    ∧ (mountEffect api (some src) (initialState api)).canvas.pixels = api.blank
    ∧ (mountEffect api (some src) (initialState api)).history = []
    ∧ (mountEffect api (some src) (initialState api)).historyStep = -1 := by
  have hs : ∀ t : EditorState Buffer Snapshot, mountEffect api (some src) t = t := by
    intro t
    simp [mountEffect, h]
  refine ⟨hs s, ?_, ?_, ?_⟩ <;> rw [hs] <;> rfl

/-- Witness of the amended C18: the source `"corrupt"` on the strict decoder. -/
theorem mountEffect_undecodable_witness :
    strictPixel.decode "corrupt" = none
    ∧ mountEffect strictPixel (some "corrupt") (initialState strictPixel)
        = initialState strictPixel :=
  ⟨rfl, (mountEffect_undecodable strictPixel "corrupt" (initialState strictPixel) rfl).1⟩

theorem step_lineWidth (api : CanvasApi Buffer Image Snapshot) (a : Action)
    (s : EditorState Buffer Snapshot) (h : ∀ w, a ≠ Action.setLineWidth w) :
    (step api a s).lineWidth = s.lineWidth := by
  cases a with
  | saveToHistory => rfl
  | undo =>
    show (undo api s).lineWidth = s.lineWidth
    unfold undo
    split <;> rfl
  | redo =>
    show (redo api s).lineWidth = s.lineWidth
    unfold redo
    split <;> rfl
  | clearCanvas => rfl
  | startDrawing rect e => rfl
  | draw rect e =>
    show (draw api rect e s).lineWidth = s.lineWidth
    unfold draw
    split <;> rfl
  | stopDrawing =>
    show (stopDrawing api s).lineWidth = s.lineWidth
    unfold stopDrawing
    split <;> rfl
  | setTool t => rfl
  | setColor c => rfl
  | setLineWidth w => exact absurd rfl (h w)

theorem widthInRange_step (api : CanvasApi Buffer Image Snapshot) (a : Action)
    (s : EditorState Buffer Snapshot) (ha : widthInRange a = true)
    (h : ∃ v, s.lineWidth = some v ∧ 1 ≤ v ∧ v ≤ 20) :
    ∃ v, (step api a s).lineWidth = some v ∧ 1 ≤ v ∧ v ≤ 20 := by
  by_cases hset : ∃ w, a = Action.setLineWidth w
  · obtain ⟨w, rfl⟩ := hset
    cases w with
    | none => exact absurd ha (by simp [widthInRange])
    | some v =>
      simp only [widthInRange, Bool.and_eq_true, decide_eq_true_eq] at ha
      exact ⟨v, rfl, ha.1, ha.2⟩
  · rw [step_lineWidth api a s (fun w hw => hset ⟨w, hw⟩)]
    exact h

theorem parseInt_rangeValue (requested : Int) :
    parseInt (rangeValue requested) = some (max 1 (min 20 requested)) := by
  unfold rangeValue
  have h1 : (1 : Int) ≤ max 1 (min 20 requested) := le_max_left _ _
  have h2 : max 1 (min 20 requested) ≤ (20 : Int) := max_le (by decide) (min_le_left _ _)
  generalize max 1 (min 20 requested) = v at h1 h2
  interval_cases v <;> decide

/-- C19: the width control delivers to its change handler the decimal text of
the requested position kept within 1..20, so a request outside the bound is
stored clamped, never rejected or stored as it is; the width starts at 2, and
in every state reached by handler calls whose width changes come from the
control, the line width is an integer with 1 <= lineWidth <= 20. -/
theorem lineWidth_within_range (api : CanvasApi Buffer Image Snapshot) (as : List Action)
    (h : ∀ a ∈ as, ∀ w, a = Action.setLineWidth w →
      ∃ requested : Int, w = parseInt (rangeValue requested)) :
    (∃ v, (run api as (initialState api)).lineWidth = some v ∧ 1 ≤ v ∧ v ≤ 20)
    ∧ (∀ (requested : Int) (s : EditorState Buffer Snapshot),
        (onLineWidthChange (rangeValue requested) s).lineWidth
            = some (max 1 (min 20 requested))
        ∧ 1 ≤ max 1 (min 20 requested) ∧ max 1 (min 20 requested) ≤ 20
        ∧ onLineWidthChange (rangeValue requested) s
            = step api (Action.setLineWidth (parseInt (rangeValue requested))) s)
    ∧ (initialState api).lineWidth = some 2 := by
  have hrange : ∀ a ∈ as, widthInRange a = true := by
    intro a ha
    by_cases hset : ∃ w, a = Action.setLineWidth w
    · obtain ⟨w, hw⟩ := hset
      obtain ⟨requested, hreq⟩ := h a ha w hw
      rw [hw, hreq, parseInt_rangeValue]
      have h1 : (1 : Int) ≤ max 1 (min 20 requested) := le_max_left _ _
      have h2 : max 1 (min 20 requested) ≤ (20 : Int) := max_le (by decide) (min_le_left _ _)
      simp only [widthInRange, Bool.and_eq_true, decide_eq_true_eq]
      exact ⟨h1, h2⟩
    · cases a with
      | setLineWidth w => exact absurd ⟨w, rfl⟩ hset
      | _ => rfl
  have key : ∀ (l : List Action), (∀ a ∈ l, widthInRange a = true) →
      ∀ s : EditorState Buffer Snapshot, (∃ v, s.lineWidth = some v ∧ 1 ≤ v ∧ v ≤ 20) →
      ∃ v, (run api l s).lineWidth = some v ∧ 1 ≤ v ∧ v ≤ 20 := by
    intro l
    induction l with
    | nil => intro _ s hs; exact hs
    | cons a l ih =>
      intro hl s hs
      exact ih (fun b hb => hl b (List.mem_cons_of_mem _ hb)) _
        (widthInRange_step api a s (hl a (List.mem_cons_self _ _)) hs)
  refine ⟨key as hrange _ ⟨2, rfl, by decide, by decide⟩, ?_, rfl⟩
  intro requested s
  refine ⟨?_, le_max_left _ _, max_le (by decide) (min_le_left _ _), rfl⟩
  show parseInt (rangeValue requested) = _
  exact parseInt_rangeValue requested

/-- Witness of C19: the user drags the control past both ends, to the positions
25 and -3, around an eraser selection. -/
theorem lineWidth_within_range_witness :
    (∃ v, (run onePixel
        [Action.setLineWidth (parseInt (rangeValue 25)), Action.setTool Tool.eraser,
         Action.setLineWidth (parseInt (rangeValue (-3)))]
        (initialState onePixel)).lineWidth = some v ∧ 1 ≤ v ∧ v ≤ 20)
    ∧ (onLineWidthChange (rangeValue 25) (initialState onePixel)).lineWidth
        = some (max 1 (min 20 25)) :=
  ⟨(lineWidth_within_range onePixel
      [Action.setLineWidth (parseInt (rangeValue 25)), Action.setTool Tool.eraser,
       Action.setLineWidth (parseInt (rangeValue (-3)))]
      (by
        intro a ha w hw
        simp only [List.mem_cons, List.mem_singleton, List.not_mem_nil, or_false] at ha
        rcases ha with rfl | rfl | rfl
        · exact ⟨25, (Action.setLineWidth.inj hw).symm⟩
        · exact absurd hw (by simp)
        · exact ⟨-3, (Action.setLineWidth.inj hw).symm⟩)).1,
   ((lineWidth_within_range onePixel [] (fun _ ha => absurd ha (List.not_mem_nil _))).2.1
      25 (initialState onePixel)).1⟩

/-- C20: clearCanvas fills the whole buffer with white and commits one snapshot
of that buffer: the history becomes its first cursor+1 entries followed by the
snapshot, and the cursor moves to it. -/
theorem clearCanvas_fills_and_commits (api : CanvasApi Buffer Image Snapshot)
    (s : EditorState Buffer Snapshot) :
    (clearCanvas api s).canvas.pixels = api.fillRect s.canvas.pixels "white"
    ∧ (-1 ≤ s.historyStep →
        (clearCanvas api s).history
          = s.history.take (s.historyStep + 1).toNat
              ++ [api.toDataURL (api.fillRect s.canvas.pixels "white")])
    ∧ (-1 ≤ s.historyStep → s.historyStep < (s.history.length : Int) →
        ((clearCanvas api s).history.length : Int) = s.historyStep + 2
        ∧ (clearCanvas api s).historyStep = s.historyStep + 1)
    ∧ (clearCanvas api s).historyStep = ((clearCanvas api s).history.length : Int) - 1
    ∧ index (clearCanvas api s).history (clearCanvas api s).historyStep
        = some (api.toDataURL (api.fillRect s.canvas.pixels "white"))
    ∧ (clearCanvas api s).isDrawing = s.isDrawing := by
  have hhist : -1 ≤ s.historyStep → (clearCanvas api s).history
      = s.history.take (s.historyStep + 1).toNat
          ++ [api.toDataURL (api.fillRect s.canvas.pixels "white")] := by
    intro hlo
    unfold clearCanvas
    exact saveToHistory_history api _ hlo
  have hstep : (clearCanvas api s).historyStep
      = ((clearCanvas api s).history.length : Int) - 1 := by
    unfold clearCanvas
    exact saveToHistory_historyStep api _
  refine ⟨rfl, hhist, ?_, hstep, ?_, rfl⟩
  · intro hlo hhi
    have hlen : ((clearCanvas api s).history.length : Int) = s.historyStep + 2 := by
      rw [hhist hlo, List.length_append, List.length_take, List.length_singleton]
      omega
    refine ⟨hlen, ?_⟩
    rw [hstep, hlen]
    omega
  · unfold clearCanvas
    exact saveToHistory_index api _

/-- Witness of C20: clearing after an undo on three snapshots. -/
theorem clearCanvas_fills_and_commits_witness :
    (clearCanvas onePixel (sample ["a", "b", "c"] 1 "b")).canvas.pixels = "white"
    ∧ (clearCanvas onePixel (sample ["a", "b", "c"] 1 "b")).history = ["a", "b", "white"]
    ∧ (clearCanvas onePixel (sample ["a", "b", "c"] 1 "b")).historyStep = 2 :=
  ⟨(clearCanvas_fills_and_commits onePixel (sample ["a", "b", "c"] 1 "b")).1,
   (clearCanvas_fills_and_commits onePixel (sample ["a", "b", "c"] 1 "b")).2.1 (by decide),
   ((clearCanvas_fills_and_commits onePixel (sample ["a", "b", "c"] 1 "b")).2.2.1
      (by decide) (by decide)).2⟩

end Surface

/-! ## Save, Cancel and the exported image -/

section Saving

variable {Buffer Image Snapshot : Type}

/-- C21: Save invokes onSave once, with the data URL of the live buffer, and
nothing else, and leaves the editor state, buffer and history included, as it
was; Cancel invokes onCancel once and nothing else. -/
theorem save_and_cancel_callbacks (api : CanvasApi Buffer Image Snapshot)
    (s : EditorState Buffer Snapshot) :
    (handleSave api s).2 = [HostCall.onSave (api.toDataURL s.canvas.pixels)]
    ∧ HostCall.onCancel ∉ (handleSave api s).2
    ∧ (handleSave api s).1 = s
    ∧ (handleSave api s).1.canvas.pixels = s.canvas.pixels
    ∧ (handleSave api s).1.history = s.history
    ∧ (handleCancel s).2 = [HostCall.onCancel]
    ∧ (∀ imageData, HostCall.onSave imageData ∉ (handleCancel s).2)
    ∧ (handleCancel s).1 = s := by
  refine ⟨rfl, ?_, rfl, rfl, rfl, rfl, ?_, rfl⟩
  · simp [handleSave]
  · intro imageData
    simp [handleCancel]

theorem inv_mountEffect (api : CanvasApi Buffer Image Snapshot)
    (initialImage : Option Snapshot) : Inv api (mountEffect api initialImage (initialState api)) := by
  have henc : ∀ c : Canvas Buffer,
      Encoded api { initialState api with canvas := c } :=
    fun _ _ hm => absurd hm (by simp [initialState])
  cases initialImage with
  | none =>
    exact ⟨cursorValid_saveToHistory api _, synced_saveToHistory api _ (henc _)⟩
  | some src =>
    cases hdec : api.decode src with
    | none =>
      have : mountEffect api (some src) (initialState api) = initialState api := by
        simp [mountEffect, hdec]
      rw [this]
      exact inv_initialState api
    | some img =>
      have : mountEffect api (some src) (initialState api)
          = saveToHistory api { initialState api with canvas :=
              { (initialState api).canvas with
                  pixels := api.drawImageScaled (initialState api).canvas.pixels img } } := by
        simp [mountEffect, hdec]
      rw [this]
      exact ⟨cursorValid_saveToHistory api _, synced_saveToHistory api _ (henc _)⟩

theorem mountEffect_history_ne_nil (api : CanvasApi Buffer Image Snapshot)
    (initialImage : Option Snapshot)
    (h : initialImage = none ∨ ∃ src img, initialImage = some src ∧ api.decode src = some img) :
    (mountEffect api initialImage (initialState api)).history ≠ [] := by
  rcases h with rfl | ⟨src, img, rfl, hdec⟩
  · exact saveToHistory_history_ne_nil api _
  · have : mountEffect api (some src) (initialState api)
        = saveToHistory api { initialState api with canvas :=
            { (initialState api).canvas with
                pixels := api.drawImageScaled (initialState api).canvas.pixels img } } := by
      simp [mountEffect, hdec]
    rw [this]
    exact saveToHistory_history_ne_nil api _

theorem encoded_step (api : CanvasApi Buffer Image Snapshot) (a : Action)
    (s : EditorState Buffer Snapshot) (he : Encoded api s) : Encoded api (step api a s) := by
  cases a with
  | saveToHistory => exact encoded_saveToHistory api s he
  | undo =>
    intro snap hm
    exact he snap (by rw [← undo_history api s]; exact hm)
  | redo =>
    intro snap hm
    exact he snap (by rw [← redo_history api s]; exact hm)
  | clearCanvas =>
    show Encoded api (clearCanvas api s)
    unfold clearCanvas
    refine encoded_saveToHistory api _ ?_
    exact he
  | startDrawing rect e => exact he
  | draw rect e =>
    intro snap hm
    exact he snap (by rw [← (draw_history api rect e s).1]; exact hm)
  | stopDrawing =>
    show Encoded api (stopDrawing api s)
    unfold stopDrawing
    split
    · refine encoded_saveToHistory api _ ?_
      exact he
    · exact he
  | setTool t => exact he
  | setColor c => exact he
  | setLineWidth w => exact he

/-- A click on Undo followed at once by the end of its load is the operation
`undo`. -/
theorem undoClick_loaded (api : CanvasApi Buffer Image Snapshot)
    (t : Session Buffer Snapshot) :
    (imageLoaded api t.loading.length (undoClick t)).editor = undo api t.editor := by
  rcases le_or_lt t.editor.historyStep 0 with hc | hc
  · have hn : ¬ t.editor.historyStep > 0 := not_lt.mpr hc
    have hget : t.loading.get? t.loading.length = none := by simp
    simp only [undoClick, hn, if_false, imageLoaded, hget]
    exact (undo_of_nonpos api t.editor hc).symm
  · have hget : (t.loading ++ [index t.editor.history (t.editor.historyStep - 1)]).get?
        t.loading.length = some (index t.editor.history (t.editor.historyStep - 1)) := by simp
    simp only [undoClick, hc, if_true, imageLoaded, hget]
    exact (undo_of_pos api t.editor hc).symm

/-- A click on Redo followed at once by the end of its load is the operation
`redo`. -/
theorem redoClick_loaded (api : CanvasApi Buffer Image Snapshot)
    (t : Session Buffer Snapshot) :
    (imageLoaded api t.loading.length (redoClick t)).editor = redo api t.editor := by
  rcases lt_or_le t.editor.historyStep ((t.editor.history.length : Int) - 1) with hc | hc
  · have hget : (t.loading ++ [index t.editor.history (t.editor.historyStep + 1)]).get?
        t.loading.length = some (index t.editor.history (t.editor.historyStep + 1)) := by simp
    simp only [redoClick, hc, if_true, imageLoaded, hget]
    exact (redo_of_lt api t.editor hc).symm
  · have hn : ¬ t.editor.historyStep < (t.editor.history.length : Int) - 1 := not_lt.mpr hc
    have hget : t.loading.get? t.loading.length = none := by simp
    simp only [redoClick, hn, if_false, imageLoaded, hget]
    exact (redo_of_ge api t.editor hc).symm

theorem imageLoaded_history (api : CanvasApi Buffer Image Snapshot) (i : Nat)
    (t : Session Buffer Snapshot) :
    (imageLoaded api i t).editor.history = t.editor.history
      ∧ (imageLoaded api i t).editor.historyStep = t.editor.historyStep := by
  unfold imageLoaded
  split <;> exact ⟨rfl, rfl⟩

theorem undoClick_history (api : CanvasApi Buffer Image Snapshot)
    (t : Session Buffer Snapshot) :
    (undoClick t).editor.history = (undo api t.editor).history
      ∧ (undoClick t).editor.historyStep = (undo api t.editor).historyStep := by
  rw [← undoClick_loaded api t]
  exact ⟨(imageLoaded_history api _ _).1.symm, (imageLoaded_history api _ _).2.symm⟩

theorem redoClick_history (api : CanvasApi Buffer Image Snapshot)
    (t : Session Buffer Snapshot) :
    (redoClick t).editor.history = (redo api t.editor).history
      ∧ (redoClick t).editor.historyStep = (redo api t.editor).historyStep := by
  rw [← redoClick_loaded api t]
  exact ⟨(imageLoaded_history api _ _).1.symm, (imageLoaded_history api _ _).2.symm⟩

theorem history_invariants_congr (api : CanvasApi Buffer Image Snapshot)
    (s u : EditorState Buffer Snapshot) (hh : u.history = s.history)
    (hc : u.historyStep = s.historyStep) (h : CursorValid s ∧ Encoded api s) :
    CursorValid u ∧ Encoded api u := by
  unfold CursorValid Encoded at *
  rw [hh, hc]
  exact h

theorem session_invariant_step (api : CanvasApi Buffer Image Snapshot) (ev : Event)
    (t : Session Buffer Snapshot) (h : CursorValid t.editor ∧ Encoded api t.editor) :
    CursorValid (sessionStep api ev t).editor ∧ Encoded api (sessionStep api ev t).editor := by
  have hstep : ∀ a, CursorValid (step api a t.editor) ∧ Encoded api (step api a t.editor) :=
    fun a => ⟨cursorValid_step api a t.editor h.1, encoded_step api a t.editor h.2⟩
  cases ev with
  | imageLoaded i =>
    exact history_invariants_congr api t.editor _ (imageLoaded_history api i t).1
      (imageLoaded_history api i t).2 h
  | handler a =>
    cases a with
    | undo =>
      exact history_invariants_congr api (undo api t.editor) _ (undoClick_history api t).1
        (undoClick_history api t).2 (hstep Action.undo)
    | redo =>
      exact history_invariants_congr api (redo api t.editor) _ (redoClick_history api t).1
        (redoClick_history api t).2 (hstep Action.redo)
    | saveToHistory => exact hstep Action.saveToHistory
    | clearCanvas => exact hstep Action.clearCanvas
    | startDrawing rect e => exact hstep (Action.startDrawing rect e)
    | draw rect e => exact hstep (Action.draw rect e)
    | stopDrawing => exact hstep Action.stopDrawing
    | setTool x => exact hstep (Action.setTool x)
    | setColor c => exact hstep (Action.setColor c)
    | setLineWidth w => exact hstep (Action.setLineWidth w)

theorem session_invariant_run (api : CanvasApi Buffer Image Snapshot) (es : List Event) :
    ∀ t : Session Buffer Snapshot, CursorValid t.editor ∧ Encoded api t.editor →
      CursorValid (sessionRun api es t).editor ∧ Encoded api (sessionRun api es t).editor := by
  induction es with
  | nil => intro t h; exact h
  | cons ev es ih => intro t h; exact ih _ (session_invariant_step api ev t h)

theorem settled_pair (api : CanvasApi Buffer Image Snapshot) (a : Action)
    (s : EditorState Buffer Snapshot) :
    sessionStep api (Event.imageLoaded 0)
        (sessionStep api (Event.handler a) { editor := s, loading := [] })
      = { editor := step api a s, loading := [] } := by
  have hnone : ∀ u : EditorState Buffer Snapshot,
      imageLoaded api 0 { editor := u, loading := [] } = { editor := u, loading := [] } :=
    fun _ => rfl
  cases a with
  | undo =>
    show imageLoaded api 0 (undoClick { editor := s, loading := [] }) = _
    rcases le_or_lt s.historyStep 0 with hc | hc
    · have hn : ¬ s.historyStep > 0 := not_lt.mpr hc
      simp only [undoClick, hn, if_false, hnone]
      exact congrArg (fun u => Session.mk u []) (undo_of_nonpos api s hc).symm
    · simp only [undoClick, hc, if_true, imageLoaded, List.nil_append, List.get?_cons_zero,
        List.eraseIdx_cons_zero]
      exact congrArg (fun u => Session.mk u []) (undo_of_pos api s hc).symm
  | redo =>
    show imageLoaded api 0 (redoClick { editor := s, loading := [] }) = _
    rcases lt_or_le s.historyStep ((s.history.length : Int) - 1) with hc | hc
    · simp only [redoClick, hc, if_true, imageLoaded, List.nil_append, List.get?_cons_zero,
        List.eraseIdx_cons_zero]
      exact congrArg (fun u => Session.mk u []) (redo_of_lt api s hc).symm
    · have hn : ¬ s.historyStep < (s.history.length : Int) - 1 := not_lt.mpr hc
      simp only [redoClick, hn, if_false, hnone]
      exact congrArg (fun u => Session.mk u []) (redo_of_ge api s hc).symm
  | saveToHistory => rfl
  | clearCanvas => rfl
  | startDrawing rect e => rfl
  | draw rect e => rfl
  | stopDrawing => rfl
  | setTool x => rfl
  | setColor c => rfl
  | setLineWidth w => rfl

/-- With every load ended before the next event, a session is the run of the
operations `undo` and `redo` and the other handlers. -/
theorem sessionRun_settled (api : CanvasApi Buffer Image Snapshot) (as : List Action) :
    ∀ s : EditorState Buffer Snapshot,
      sessionRun api (settled as) { editor := s, loading := [] }
        = { editor := run api as s, loading := [] } := by
  induction as with
  | nil => intro s; rfl
  | cons a as ih =>
    intro s
    show sessionRun api (settled as)
        (sessionStep api (Event.imageLoaded 0)
          (sessionStep api (Event.handler a) { editor := s, loading := [] })) = _
    rw [settled_pair, ih]
    rfl

theorem checkedPixel_lossless : Lossless checkedPixel :=
  fun b _ => ⟨b, rfl, rfl⟩

/-- C9, as stated, fails: with a lossless codec, after one stroke the Undo
button is enabled (cursor 1); when the click on it returns, the cursor is 0
and the image of history[0] is still loading, so the buffer holds the stroke
while history[0] holds the white canvas. -/
theorem buffer_stale_after_undo_click :
    Lossless onePixel
    ∧ 0 < (sessionRun onePixel oneStroke (opened onePixel none)).editor.historyStep
    ∧ (sessionRun onePixel (oneStroke ++ [Event.handler Action.undo])
        (opened onePixel none)).editor.history = ["white", "#000000"]
    ∧ (sessionRun onePixel (oneStroke ++ [Event.handler Action.undo])
        (opened onePixel none)).editor.historyStep = 0
    ∧ (sessionRun onePixel (oneStroke ++ [Event.handler Action.undo])
        (opened onePixel none)).editor.canvas.pixels = "#000000"
    ∧ (sessionRun onePixel (oneStroke ++ [Event.handler Action.undo])
        (opened onePixel none)).loading = [some "white"]
    ∧ ¬ BufferIsCurrent onePixel
        (sessionRun onePixel (oneStroke ++ [Event.handler Action.undo])
          (opened onePixel none)).editor := by
  refine ⟨fun b _ => ⟨b, rfl, rfl⟩, by decide, rfl, rfl, rfl, rfl, ?_⟩
  rintro ⟨snap, hsnap, img, himg, hdraw⟩
  have hidx : index (sessionRun onePixel (oneStroke ++ [Event.handler Action.undo])
      (opened onePixel none)).editor.history
      (sessionRun onePixel (oneStroke ++ [Event.handler Action.undo])
        (opened onePixel none)).editor.historyStep = some "white" := rfl
  have hpix : (sessionRun onePixel (oneStroke ++ [Event.handler Action.undo])
      (opened onePixel none)).editor.canvas.pixels = "#000000" := rfl
  rw [hidx] at hsnap
  rw [hpix] at hdraw
  have hs : snap = "white" := (Option.some.inj hsnap).symm
  have hi : img = "white" := by
    rw [hs] at himg
    exact (Option.some.inj himg).symm
  have hd : img = "#000000" := hdraw ""
  rw [hi] at hd
  exact absurd hd (by decide)

/-- C9, amended: with a lossless codec, in every session of an opened editor,
whatever the events and the loads still in flight, the buffer has the content
of history[cursor] immediately after a commit, and after an undo or a redo that
moves the cursor as soon as the image it loads has loaded with no other event
in between; the click and that load together are the operations undo and
redo. -/
theorem buffer_current_after_history_op (api : CanvasApi Buffer Image Snapshot)
    (hl : Lossless api) (initialImage : Option Snapshot) (es : List Event)
    (t : Session Buffer Snapshot) (ht : t = sessionRun api es (opened api initialImage)) :
    BufferIsCurrent api (saveToHistory api t.editor)
    ∧ (0 < t.editor.historyStep →
        BufferIsCurrent api (imageLoaded api t.loading.length (undoClick t)).editor)
    ∧ (t.editor.historyStep < (t.editor.history.length : Int) - 1 →
        BufferIsCurrent api (imageLoaded api t.loading.length (redoClick t)).editor)
    ∧ (imageLoaded api t.loading.length (undoClick t)).editor = undo api t.editor
    ∧ (imageLoaded api t.loading.length (redoClick t)).editor = redo api t.editor := by
  have hinv : CursorValid t.editor ∧ Encoded api t.editor := by
    rw [ht]
    exact session_invariant_run api es _
      ⟨(inv_mountEffect api initialImage).1, (inv_mountEffect api initialImage).2.1⟩
  refine ⟨bufferIsCurrent_of_index api hl _ (saveToHistory_index api t.editor), ?_, ?_,
    undoClick_loaded api t, redoClick_loaded api t⟩
  · intro h
    rw [undoClick_loaded]
    exact bufferIsCurrent_of_index api hl _ (undo_index api hl t.editor hinv.1 hinv.2 h)
  · intro h
    rw [redoClick_loaded]
    exact bufferIsCurrent_of_index api hl _ (redo_index api hl t.editor hinv.1 hinv.2 h)

/-- Witness of the amended C9: after one stroke, the click on Undo and the end
of its load leave the buffer equal to the entry under the cursor. -/
theorem buffer_current_after_history_op_witness :
    Lossless onePixel
    ∧ 0 < (sessionRun onePixel oneStroke (opened onePixel none)).editor.historyStep
    ∧ BufferIsCurrent onePixel
        (imageLoaded onePixel (sessionRun onePixel oneStroke (opened onePixel none)).loading.length
          (undoClick (sessionRun onePixel oneStroke (opened onePixel none)))).editor :=
  ⟨onePixel_lossless, by decide,
   (buffer_current_after_history_op onePixel onePixel_lossless none oneStroke _ rfl).2.1
     (by decide)⟩

/-- C22, as stated, fails: with a lossless codec, when a red stroke is drawn
and released between a click on the enabled Undo button and the end of its
load, the idle editor ends with a white buffer, which handleSave hands to
onSave, while history[cursor] is the red stroke; and after an opening on an
image that does not decode the idle editor has no history[cursor] at all. -/
theorem export_differs_from_history :
    Lossless onePixel
    ∧ (sessionRun onePixel strokeBeforeLoad (opened onePixel none)).editor.isDrawing = false
    ∧ (sessionRun onePixel strokeBeforeLoad (opened onePixel none)).loading = []
    ∧ (handleSave onePixel
        (sessionRun onePixel strokeBeforeLoad (opened onePixel none)).editor).2
        = [HostCall.onSave "white"]
    ∧ index (sessionRun onePixel strokeBeforeLoad (opened onePixel none)).editor.history
        (sessionRun onePixel strokeBeforeLoad (opened onePixel none)).editor.historyStep
        = some "#ff0000"
    ∧ ¬ BufferIsCurrent onePixel
        (sessionRun onePixel strokeBeforeLoad (opened onePixel none)).editor
    ∧ Lossless checkedPixel
    ∧ (opened checkedPixel (some none)).editor.isDrawing = false
    ∧ (opened checkedPixel (some none)).editor.history = []
    ∧ ¬ BufferIsCurrent checkedPixel (opened checkedPixel (some none)).editor := by
  refine ⟨fun b _ => ⟨b, rfl, rfl⟩, rfl, rfl, rfl, rfl, ?_, fun b _ => ⟨b, rfl, rfl⟩, rfl, rfl,
    ?_⟩
  · rintro ⟨snap, hsnap, img, himg, hdraw⟩
    have hidx : index
        (sessionRun onePixel strokeBeforeLoad (opened onePixel none)).editor.history
        (sessionRun onePixel strokeBeforeLoad (opened onePixel none)).editor.historyStep
        = some "#ff0000" := rfl
    have hpix : (sessionRun onePixel strokeBeforeLoad
        (opened onePixel none)).editor.canvas.pixels = "white" := rfl
    rw [hidx] at hsnap
    rw [hpix] at hdraw
    have hs : snap = "#ff0000" := (Option.some.inj hsnap).symm
    have hi : img = "#ff0000" := by
      rw [hs] at himg
      exact (Option.some.inj himg).symm
    have hd : img = "white" := hdraw ""
    rw [hi] at hd
    exact absurd hd (by decide)
  · rintro ⟨snap, hsnap, _⟩
    have hidx : index (opened checkedPixel (some none)).editor.history
        (opened checkedPixel (some none)).editor.historyStep = none := rfl
    rw [hidx] at hsnap
    exact Option.noConfusion hsnap

/-- C22, amended: with a lossless codec, after an opening that committed its
first snapshot (no initial image, or one that decodes), in every session of
handler calls in which each image load of undo and redo ends before the next
event and in which isDrawing = false, no load is in flight, the image that
handleSave hands to onSave is the data URL of the live buffer, it is the entry
history[cursor], and the buffer has the content of that entry. -/
theorem export_reflects_history (api : CanvasApi Buffer Image Snapshot) (hl : Lossless api)
    (initialImage : Option Snapshot)
    (hinit : initialImage = none
      ∨ ∃ src img, initialImage = some src ∧ api.decode src = some img)
    (as : List Action) (t : Session Buffer Snapshot)
    (ht : t = sessionRun api (settled as) (opened api initialImage))
    (hd : t.editor.isDrawing = false) :
    t.loading = []
    ∧ t.editor = run api as (mountEffect api initialImage (initialState api))
    ∧ (handleSave api t.editor).2 = [HostCall.onSave (api.toDataURL t.editor.canvas.pixels)]
    ∧ index t.editor.history t.editor.historyStep
        = some (api.toDataURL t.editor.canvas.pixels)
    ∧ BufferIsCurrent api t.editor := by
  have hrun : t = { editor := run api as (mountEffect api initialImage (initialState api)),
                    loading := [] } := by
    rw [ht]
    exact sessionRun_settled api as _
  have hed : t.editor = run api as (mountEffect api initialImage (initialState api)) := by
    rw [hrun]
  have hinv : Inv api t.editor := by
    rw [hed]
    exact run_invariant api (Inv api) (inv_step api hl) as _ (inv_mountEffect api initialImage)
  have hne : t.editor.history ≠ [] := by
    rw [hed]
    exact run_invariant api (fun u => u.history ≠ []) (history_ne_nil_step api) as _
      (mountEffect_history_ne_nil api initialImage hinit)
  have hidx := hinv.2.2 hd hne
  exact ⟨by rw [hrun], hed, rfl, hidx, bufferIsCurrent_of_index api hl _ hidx⟩

/-- Witness of the amended C22: a stroke and an undo whose load ends at once,
on the one-pixel editor opened without an image. -/
theorem export_reflects_history_witness :
    Lossless onePixel
    ∧ (handleSave onePixel
        (sessionRun onePixel
          (settled [Action.startDrawing fullRect { clientX := 10, clientY := 10 },
            Action.draw fullRect { clientX := 20, clientY := 20 }, Action.stopDrawing,
            Action.undo])
          (opened onePixel none)).editor).2
      = [HostCall.onSave "white"]
    ∧ index
        (sessionRun onePixel
          (settled [Action.startDrawing fullRect { clientX := 10, clientY := 10 },
            Action.draw fullRect { clientX := 20, clientY := 20 }, Action.stopDrawing,
            Action.undo])
          (opened onePixel none)).editor.history
        (sessionRun onePixel
          (settled [Action.startDrawing fullRect { clientX := 10, clientY := 10 },
            Action.draw fullRect { clientX := 20, clientY := 20 }, Action.stopDrawing,
            Action.undo])
          (opened onePixel none)).editor.historyStep
      = some "white" :=
  ⟨onePixel_lossless,
   (export_reflects_history onePixel onePixel_lossless none (Or.inl rfl)
      [Action.startDrawing fullRect { clientX := 10, clientY := 10 },
        Action.draw fullRect { clientX := 20, clientY := 20 }, Action.stopDrawing,
        Action.undo] _ rfl rfl).2.2.1,
   (export_reflects_history onePixel onePixel_lossless none (Or.inl rfl)
      [Action.startDrawing fullRect { clientX := 10, clientY := 10 },
        Action.draw fullRect { clientX := 20, clientY := 20 }, Action.stopDrawing,
        Action.undo] _ rfl rfl).2.2.2.1⟩

theorem loadSnapshot_frame (api : CanvasApi Buffer Image Snapshot) (c : Canvas Buffer)
    (src : Option Snapshot) :
    (loadSnapshot api c src).path = c.path ∧ (loadSnapshot api c src).style = c.style
      ∧ (loadSnapshot api c src).fillStyle = c.fillStyle
      ∧ (loadSnapshot api c src).width = c.width
      ∧ (loadSnapshot api c src).height = c.height := by
  unfold loadSnapshot
  split <;> exact ⟨rfl, rfl, rfl, rfl, rfl⟩

/-- C23: undo and redo leave the list of snapshots as it is; of the state only
the cursor and the pixels of the buffer can change. -/
theorem undo_redo_keep_history (api : CanvasApi Buffer Image Snapshot)
    (s : EditorState Buffer Snapshot) :
    ((undo api s).history = s.history
      ∧ (∀ i : Nat, (undo api s).history.get? i = s.history.get? i)
      ∧ (undo api s).isDrawing = s.isDrawing ∧ (undo api s).tool = s.tool
      ∧ (undo api s).color = s.color ∧ (undo api s).lineWidth = s.lineWidth
      ∧ (undo api s).canvas.path = s.canvas.path ∧ (undo api s).canvas.style = s.canvas.style)
    ∧ ((redo api s).history = s.history
      ∧ (∀ i : Nat, (redo api s).history.get? i = s.history.get? i)
      ∧ (redo api s).isDrawing = s.isDrawing ∧ (redo api s).tool = s.tool
      ∧ (redo api s).color = s.color ∧ (redo api s).lineWidth = s.lineWidth
      ∧ (redo api s).canvas.path = s.canvas.path
      ∧ (redo api s).canvas.style = s.canvas.style) := by
  constructor
  · have hh := undo_history api s
    refine ⟨hh, fun i => by rw [hh], ?_⟩
    rcases le_or_lt s.historyStep 0 with hc | hc
    · rw [undo_of_nonpos api s hc]
      exact ⟨rfl, rfl, rfl, rfl, rfl, rfl⟩
    · rw [undo_of_pos api s hc]
      exact ⟨rfl, rfl, rfl, rfl, (loadSnapshot_frame api _ _).1, (loadSnapshot_frame api _ _).2.1⟩
  · have hh := redo_history api s
    refine ⟨hh, fun i => by rw [hh], ?_⟩
    rcases lt_or_le s.historyStep ((s.history.length : Int) - 1) with hc | hc
    · rw [redo_of_lt api s hc]
      exact ⟨rfl, rfl, rfl, rfl, (loadSnapshot_frame api _ _).1, (loadSnapshot_frame api _ _).2.1⟩
    · rw [redo_of_ge api s hc]
      exact ⟨rfl, rfl, rfl, rfl, rfl, rfl⟩

end Saving

/-! ## The sketch step -/

section SketchStep

theorem filterMap_cons_toList {α β : Type} (f : α → Option β) (a : α) (l : List α) :
    List.filterMap f (a :: l) = (f a).toList ++ List.filterMap f l := by
  cases h : f a <;> simp [List.filterMap_cons, h]

theorem push_plain (selectedFeatures : Features) (key words : String) (parts : List String) :
    (if truthy (selectedFeatures key) = true
      then parts ++ [str (selectedFeatures key) ++ words] else parts)
      = parts ++ (phraseOf selectedFeatures
          { key := key, words := words, silent := none }).toList := by
  unfold phraseOf
  cases h : selectedFeatures key with
  | none => simp [truthy]
  | some v =>
    by_cases hv : v = ""
    · simp [truthy, hv]
    · simp [truthy, str, hv]

theorem push_bare (selectedFeatures : Features) (key quiet : String) (parts : List String) :
    (if (truthy (selectedFeatures key) && selectedFeatures key != some quiet) = true
      then parts ++ [str (selectedFeatures key)] else parts)
      = parts ++ (phraseOf selectedFeatures
          { key := key, words := "", silent := some quiet }).toList := by
  unfold phraseOf
  cases h : selectedFeatures key with
  | none => simp [truthy]
  | some v =>
    by_cases hv : v = ""
    · simp [truthy, hv]
    · by_cases hq : quiet = v
      · simp [truthy, str, hv, hq]
      · have hq2 : ¬ v = quiet := fun e => hq e.symm
        simp [truthy, str, hv, hq, hq2]

/-- C24: buildDescription returns the description the specification states:
the phrases of the features that have a non-empty value, in the order
complexion, faceShape, eyeShape, noseType, mouthShape, eyebrows, hairType,
facialHair, distinctiveMarks, with no phrase for facialHair 'clean shaven' and
distinctiveMarks 'none', joined by ', '; and the empty string when no feature
is selected. -/
theorem buildDescription_refines_spec (selectedFeatures : Features) :
    buildDescription selectedFeatures = buildDescriptionSpec selectedFeatures
    ∧ buildDescription (fun _ => none) = "" := by
  constructor
  · unfold buildDescription buildDescriptionSpec phraseRules
    simp only [push_plain, push_bare]
    simp only [filterMap_cons_toList, List.filterMap_nil, List.nil_append, List.append_nil,
      List.append_assoc]
  · rfl

/-- C26: handleEditorCancel only sets showEditor to false; handleEditorSave
with image e sets sketchImage to e, closes the editor and appends one version,
of image e and description followed by ' (manually edited)', to
sketchHistory. -/
theorem editor_callbacks_on_host (now : Nat) (e : String) (h : HostState) :
    (handleEditorCancel h = { h with showEditor := false }
      ∧ (handleEditorCancel h).showEditor = false
      ∧ (handleEditorCancel h).sketchImage = h.sketchImage
      ∧ (handleEditorCancel h).description = h.description
      ∧ (handleEditorCancel h).sketchHistory = h.sketchHistory)
    ∧ ((handleEditorSave now e h).sketchImage = some e
      ∧ (handleEditorSave now e h).sketchHistory
          = h.sketchHistory
            ++ [{ image := e, description := h.description ++ " (manually edited)",
                  timestamp := now }]
      ∧ (handleEditorSave now e h).sketchHistory.length = h.sketchHistory.length + 1
      ∧ (handleEditorSave now e h).description = h.description
      ∧ (handleEditorSave now e h).showEditor = false) := by
  refine ⟨⟨rfl, rfl, rfl, rfl, rfl⟩, rfl, rfl, ?_, rfl, rfl⟩
  simp [handleEditorSave]

end SketchStep

/-! ## The feature-selection step -/

section FeatureStep

/-- The catalogue has nine keys. -/
theorem featureKeys_length : featureKeys.length = 9 := rfl

theorem moveToNext_range (captured : Int) (s : SelectorState)
    (hc : 0 ≤ captured ∧ captured ≤ 8) (hs : 0 ≤ s.currentFeature ∧ s.currentFeature ≤ 8) :
    0 ≤ (moveToNext captured s).currentFeature ∧ (moveToNext captured s).currentFeature ≤ 8 := by
  unfold moveToNext
  rw [featureKeys_length]
  split
  · rename_i hlt
    show 0 ≤ captured + 1 ∧ captured + 1 ≤ 8
    constructor
    · omega
    · have : captured < 8 := hlt
      omega
  · exact hs

theorem moveToNext_awaiting (captured : Int) (s : SelectorState) :
    (moveToNext captured s).awaiting = s.awaiting := by
  unfold moveToNext
  split <;> rfl

theorem selector_invariant_step (a : SelectorAction) (s : SelectorState)
    (hs : (0 ≤ s.currentFeature ∧ s.currentFeature ≤ 8)
      ∧ ∀ k ∈ s.awaiting, 0 ≤ k ∧ k ≤ 8) :
    (0 ≤ (selectorStep a s).currentFeature ∧ (selectorStep a s).currentFeature ≤ 8)
      ∧ ∀ k ∈ (selectorStep a s).awaiting, 0 ≤ k ∧ k ≤ 8 := by
  obtain ⟨hcf, haw⟩ := hs
  cases a with
  | handleSelectOption option =>
    show (0 ≤ (handleSelectOption option s).currentFeature
        ∧ (handleSelectOption option s).currentFeature ≤ 8)
      ∧ ∀ k ∈ (handleSelectOption option s).awaiting, 0 ≤ k ∧ k ≤ 8
    unfold handleSelectOption
    split
    · refine ⟨hcf, ?_⟩
      intro k hk
      simp only [List.mem_append, List.mem_singleton] at hk
      rcases hk with hk | hk
      · exact haw k hk
      · rw [hk]; exact hcf
    · refine ⟨moveToNext_range _ _ hcf hcf, ?_⟩
      rw [moveToNext_awaiting]
      exact haw
  | requestDone i =>
    show (0 ≤ (requestDone i s).currentFeature ∧ (requestDone i s).currentFeature ≤ 8)
      ∧ ∀ k ∈ (requestDone i s).awaiting, 0 ≤ k ∧ k ≤ 8
    unfold requestDone
    split
    · rename_i captured hget
      refine ⟨moveToNext_range _ _ (haw captured (List.get?_mem hget)) hcf, ?_⟩
      rw [moveToNext_awaiting]
      intro k hk
      exact haw k (List.mem_of_mem_eraseIdx hk)
    · exact ⟨hcf, haw⟩
  | handleBack =>
    show (0 ≤ (handleBack s).currentFeature ∧ (handleBack s).currentFeature ≤ 8)
      ∧ ∀ k ∈ (handleBack s).awaiting, 0 ≤ k ∧ k ≤ 8
    unfold handleBack
    split
    · rename_i hpos
      refine ⟨?_, haw⟩
      show 0 ≤ s.currentFeature - 1 ∧ s.currentFeature - 1 ≤ 8
      omega
    · exact ⟨hcf, haw⟩

theorem currentFeatureData_of_range (s : SelectorState)
    (h : 0 ≤ s.currentFeature ∧ s.currentFeature ≤ 8) :
    ∃ key data, index featureKeys s.currentFeature = some key
      ∧ currentFeatureData s = some data := by
  obtain ⟨hlo, hhi⟩ := h
  unfold currentFeatureData currentFeatureKey
  generalize s.currentFeature = c at hlo hhi
  interval_cases c <;> exact ⟨_, _, rfl, rfl⟩

/-- C25: in every state reached from currentFeature = 0 by calls of
handleSelectOption and handleBack, with the waiting calls of handleSelectOption
resumed in any order, 0 <= currentFeature <= 8, the index addresses one of the
9 keys of FEATURE_OPTIONS and the lookup of the current feature finds its
entry. -/
theorem currentFeature_in_catalogue (as : List SelectorAction) :
    0 ≤ (selectorRun as selectorInitial).currentFeature
    ∧ (selectorRun as selectorInitial).currentFeature ≤ 8
    ∧ featureKeys.length = 9
    ∧ ∃ key data, index featureKeys (selectorRun as selectorInitial).currentFeature = some key
        ∧ currentFeatureData (selectorRun as selectorInitial) = some data := by
  have key : ∀ (l : List SelectorAction) (s : SelectorState),
      ((0 ≤ s.currentFeature ∧ s.currentFeature ≤ 8) ∧ ∀ k ∈ s.awaiting, 0 ≤ k ∧ k ≤ 8) →
      ((0 ≤ (selectorRun l s).currentFeature ∧ (selectorRun l s).currentFeature ≤ 8)
        ∧ ∀ k ∈ (selectorRun l s).awaiting, 0 ≤ k ∧ k ≤ 8) := by
    intro l
    induction l with
    | nil => intro s hs; exact hs
    | cons a l ih => intro s hs; exact ih _ (selector_invariant_step a s hs)
  have h := (key as selectorInitial
    ⟨⟨le_refl _, by decide⟩, fun k hk => absurd hk (by simp [selectorInitial])⟩).1
  exact ⟨h.1, h.2, rfl, currentFeatureData_of_range _ h⟩

end FeatureStep

end SketchEditor
